import Mathlib

/-!
Verification of the easypod FunASR transcription helpers against their
specification.

The development shallowly embeds the Python sources:
  * `docs/funasr_demo.py` — segment extraction (`_segment_text`),
    sentence splitting (`_split_text_into_sentences`) and the
    sentence-to-timestamp mapper (`_map_sentences_to_timestamps`);
  * `resources/python/funasr_service.py` — the transcription worker
    (`_run_transcription` with its retry shim), the JSON normalisation
    helper (`_json_ready`), download cancellation (`cancel_download`)
    and the per-file download progress callback
    (`_ProgressCallbackInstance.update`).

Dynamic Python values are modelled by the inductive type `PyVal`;
Python floats are modelled by rationals (the arithmetic performed by the
code — division by 1000 and comparisons — is exact); raising an
exception is modelled by `Except.error` carrying the exception class.
Strings are manipulated at the level of their character lists, matching
Python's codepoint-indexed strings.
-/

/-- Exception classes that the embedded code can raise. -/
inductive PyErr where
  | attributeError
  | typeError
  | valueError
  | indexError
  | zeroDivisionError
  | keyError
deriving DecidableEq

/-- Dynamic Python values.  `obj rep tolist` stands for any other object:
`rep` is its rendering by `str()`, and `tolist` is the result of its
`tolist()` method when it has one (`Option.none` otherwise).  Dict keys are
arbitrary values, as in Python. -/
inductive PyVal where
  | none
  | bool (b : Bool)
  | int (n : Int)
  | float (q : ℚ)
  | str (s : String)
  | list (xs : List PyVal)
  | tuple (xs : List PyVal)
  | set (xs : List PyVal)
  | dict (entries : List (PyVal × PyVal))
  | obj (rep : String) (tolist : Option PyVal)

/-- One timed transcript segment, the dicts built by `_segment_text`
(`text` / `start_sec` / `end_sec`). -/
structure Segment where
  text : List Char
  start_sec : ℚ
  end_sec : ℚ
deriving DecidableEq

/-- Python truthiness (`bool(v)`).  Objects without `__bool__`/`__len__`
are truthy. -/
def pyTruthy : PyVal → Bool
  | .none => false
  | .bool b => b
  | .int n => n ≠ 0
  | .float q => q ≠ 0
  | .str s => s ≠ ""
  | .list xs => !xs.isEmpty
  | .tuple xs => !xs.isEmpty
  | .set xs => !xs.isEmpty
  | .dict es => !es.isEmpty
  | .obj _ _ => true

/-- `v is None`. -/
def isPyNone : PyVal → Bool
  | .none => true
  | _ => false

/-- `v` is a `str`. -/
def isPyStr : PyVal → Bool
  | .str _ => true
  | _ => false

/-- `record.get(key)` on a string-keyed dict (the result records handed to
`_segment_text` are keyed by strings); returns `None` when absent. -/
def recordGet (r : List (String × PyVal)) (k : String) : PyVal :=
  match r.find? (fun p => p.1 == k) with
  | some p => p.2
  | Option.none => PyVal.none

/-- `d.get(key, default)` on a general dict, looking up a string key.
Python dicts have unique keys, so taking the first matching entry is
faithful. -/
def pyDictGet (d : List (PyVal × PyVal)) (k : String) (dflt : PyVal) : PyVal :=
  match d.find? (fun p => match p.1 with | .str s => s == k | _ => false) with
  | some p => p.2
  | Option.none => dflt

/-- Whitespace stripped by `str.strip()` (the common whitespace
characters; no claim depends on exotic Unicode whitespace). -/
def isPySpace (c : Char) : Bool :=
  c = ' ' || c = '\t' || c = '\n' || c = '\x0d' || c = '\x0b' || c = '\x0c'

/-- `str.strip()` on a character list. -/
def pyStripChars (s : List Char) : List Char :=
  ((s.dropWhile isPySpace).reverse.dropWhile isPySpace).reverse

/-- The full-width sentence-final punctuation set `。！？；` used by
`_split_text_into_sentences` and `rstrip` in the mapper. -/
def isSentencePunct (c : Char) : Bool :=
  c = '。' || c = '！' || c = '？' || c = '；'

/-- `sentence.rstrip("。！？；")`. -/
def rstripSentencePunct (s : List Char) : List Char :=
  (s.reverse.dropWhile isSentencePunct).reverse

/-- Value of a run of decimal digits. -/
def digitsVal (ds : List Char) : Nat :=
  ds.foldl (fun a c => 10 * a + (c.toNat - '0'.toNat)) 0

/-- Decimal literal without sign: `digits`, `digits.digits`, `digits.`
or `.digits` (a sufficient model of the literals `float(str)` accepts;
no claim evaluates `float` on a numeric string). -/
def parseUnsignedFloat (s : List Char) : Option ℚ :=
  let intPart := s.takeWhile Char.isDigit
  let rest := s.dropWhile Char.isDigit
  match rest with
  | [] => if intPart.isEmpty then Option.none else some (digitsVal intPart)
  | '.' :: frac =>
    if frac.all Char.isDigit ∧ (¬ intPart.isEmpty ∨ ¬ frac.isEmpty) then
      some ((digitsVal intPart : ℚ) + (digitsVal frac : ℚ) / (10 : ℚ) ^ frac.length)
    else Option.none
  | _ => Option.none

/-- `float(s)` on a string: optional surrounding whitespace and sign. -/
def parsePyFloat (s : String) : Option ℚ :=
  match pyStripChars s.toList with
  | '+' :: r => parseUnsignedFloat r
  | '-' :: r => (parseUnsignedFloat r).map Neg.neg
  | r => parseUnsignedFloat r

/-- `float(v)`: numbers and bools convert, numeric strings parse
(`ValueError` otherwise), everything else raises `TypeError`. -/
def pyFloat : PyVal → Except PyErr ℚ
  | .bool b => .ok (if b then 1 else 0)
  | .int n => .ok (n : ℚ)
  | .float q => .ok q
  | .str s =>
    match parsePyFloat s with
    | some q => .ok q
    | Option.none => .error .valueError
  | _ => .error .typeError

/-- `str(v)`.  Exact for `None`, bools, ints and strings — the only
values any claim renders; the renderings of floats and containers are
approximated (total, but not character-exact), which no claim observes. -/
def pyStr : PyVal → String
  | .none => "None"
  | .bool true => "True"
  | .bool false => "False"
  | .int n => toString n
  | .float q => toString q
  | .str s => s
  | .list _ => "[...]"
  | .tuple _ => "(...)"
  | .set _ => "set(...)"
  | .dict _ => "\x7b...\x7d"
  | .obj rep _ => rep

/-- Python list subscription `xs[i]` with negative-index wraparound;
`IndexError` out of range. -/
def pyListIndex (xs : List PyVal) (i : Int) : Except PyErr PyVal :=
  let n : Int := xs.length
  let j := if i < 0 then i + n else i
  if 0 ≤ j ∧ j < n then .ok (xs.getD j.toNat PyVal.none) else .error .indexError

/-- Subscription `v[i]` by an integer: sequences index (strings yield
one-character strings), dicts look the integer up as a key, everything
else raises `TypeError`. -/
def pySubscript (v : PyVal) (i : Int) : Except PyErr PyVal :=
  match v with
  | .list xs => pyListIndex xs i
  | .tuple xs => pyListIndex xs i
  | .str s => pyListIndex (s.toList.map (fun c => PyVal.str (String.mk [c]))) i
  | .dict es =>
    match es.find? (fun p => match p.1 with | .int m => m == i | _ => false) with
    | some p => .ok p.2
    | Option.none => .error .keyError
  | _ => .error .typeError

/-- `isinstance(v, Iterable)` together with the elements iteration
yields: characters for strings, keys for dicts, elements for the other
containers.  Arbitrary objects are modelled as non-iterable. -/
def pyIterElems : PyVal → Option (List PyVal)
  | .str s => some (s.toList.map (fun c => PyVal.str (String.mk [c])))
  | .list xs => some xs
  | .tuple xs => some xs
  | .set xs => some xs
  | .dict es => some (es.map Prod.fst)
  | _ => Option.none

/-- The `json.loads`-if-string step used for `stamp_sents` and
`timestamp` (funasr_demo.py lines 181-185 and 208-212): a string field is
decoded by the external `json.loads` (passed in as an oracle), and a
decode failure leaves the field `None`. -/
def decodeIfStr (jsonLoads : String → Option PyVal) (v : PyVal) : PyVal :=
  match v with
  | .str s => (jsonLoads s).getD PyVal.none
  | w => w

/-! ## Sentence splitting — `_split_text_into_sentences` (funasr_demo.py 236-256) -/

/-- `re.split(r"[。！？；]", text)`: split at every occurrence of a
sentence-final punctuation character, keeping empty fragments. -/
def splitOnPunct : List Char → List Char → List (List Char)
  | [], acc => [acc.reverse]
  | c :: rest, acc =>
    if isSentencePunct c then acc.reverse :: splitOnPunct rest []
    else splitOnPunct rest (c :: acc)

/-- The fragment list `re.split` produces for `text`. -/
def reSplitSentencePunct (text : List Char) : List (List Char) :=
  splitOnPunct text []

/-- `text.find(sub, start)` (codepoint index of the first occurrence at
or after `start`, `Option.none` for Python's `-1`). -/
def pyFindFrom (text sub : List Char) (start : Nat) : Option Nat :=
  if start > text.length then Option.none
  else go (text.length + 1 - start) start
where
  go : Nat → Nat → Option Nat
  | 0, _ => Option.none
  | fuel + 1, idx =>
    if sub.isPrefixOf (text.drop idx) then some idx else go fuel (idx + 1)

/-- `text.find(sub)`. -/
def pyFind (text sub : List Char) : Option Nat :=
  pyFindFrom text sub 0

/-- The punctuation re-attachment of `_split_text_into_sentences`
(funasr_demo.py 248-254): locate the first occurrence of the stripped
fragment in the whole text (`text.find(sent)` searches from position 0)
and append the character right after it when that character is one of
`。！？；`. -/
def attachSplitPunct (text sent : List Char) : List Char :=
  match pyFind text sent with
  | some start_pos =>
    let end_pos := start_pos + sent.length
    if hend : end_pos < text.length then
      if isSentencePunct (text.get ⟨end_pos, hend⟩) then
        sent ++ [text.get ⟨end_pos, hend⟩]
      else sent
    else sent
  | Option.none => sent

/-- Body of the `for i, sent in enumerate(sentences)` loop of
`_split_text_into_sentences`: strip the fragment, drop it when empty,
and re-attach punctuation for every fragment but the last. -/
def splitSentencesLoop (text : List Char) (total : Nat) :
    List (List Char) → Nat → List (List Char)
  | [], _ => []
  | frag :: rest, i =>
    let sent := pyStripChars frag
    if sent.isEmpty then splitSentencesLoop text total rest (i + 1)
    else
      (if i < total - 1 then attachSplitPunct text sent else sent) ::
        splitSentencesLoop text total rest (i + 1)

/-- `_split_text_into_sentences(text)` (funasr_demo.py 236-256). -/
def _split_text_into_sentences (text : List Char) : List (List Char) :=
  let sentences := reSplitSentencePunct text
  let result := splitSentencesLoop text sentences.length sentences 0
  if result.isEmpty then [text] else result

/-! ## Sentence-to-timestamp mapping — `_map_sentences_to_timestamps`
(funasr_demo.py 259-318) -/

/-- The `char_positions` computation (funasr_demo.py 266-274).  Its
results are zipped with `sentences` in the source but the positions
themselves are never read afterwards; the list always has one entry per
sentence. -/
def charPositionsLoop (full_text : List Char) :
    List (List Char) → Nat → List (Nat × Nat)
  | [], _ => []
  | sentence :: rest, current_pos =>
    let core := rstripSentencePunct sentence
    let start_pos := (pyFindFrom full_text core current_pos).getD current_pos
    let end_pos := start_pos + core.length
    (start_pos, end_pos) :: charPositionsLoop full_text rest (end_pos + 1)

/-- The `len(timestamps) >= len(sentences)` loop (funasr_demo.py
281-303): sentence `i` consumes `words_per_sentence` timestamps plus one
more while `i < remainder`; its segment spans the first timestamp of its
group to `timestamps[min(idx + words - 1, n - 1)][-1]`, milliseconds
divided by 1000. -/
def mapLoopGE (timestamps : List PyVal) (w r : Nat) :
    List ((List Char) × (Nat × Nat)) → Nat → Nat → Except PyErr (List Segment)
  | [], _, _ => .ok []
  | (sentence, _) :: rest, i, timestamp_idx =>
    let words_for_this := w + (if i < r then 1 else 0)
    if timestamp_idx < timestamps.length then
      match pyListIndex timestamps (timestamp_idx : Int) with
      | .error e => .error e
      | .ok firstTs =>
        match pySubscript firstTs 0 with
        | .error e => .error e
        | .ok startMs =>
          let end_idx : Int :=
            min ((timestamp_idx : Int) + (words_for_this : Int) - 1)
              ((timestamps.length : Int) - 1)
          match pyListIndex timestamps end_idx with
          | .error e => .error e
          | .ok lastTs =>
            match pySubscript lastTs (-1) with
            | .error e => .error e
            | .ok endMs =>
              match pyFloat startMs with
              | .error e => .error e
              | .ok sVal =>
                match pyFloat endMs with
                | .error e => .error e
                | .ok eVal =>
                  match mapLoopGE timestamps w r rest (i + 1)
                      (timestamp_idx + words_for_this) with
                  | .error e => .error e
                  | .ok restSegs =>
                    .ok (⟨sentence, sVal / 1000, eVal / 1000⟩ :: restSegs)
    else mapLoopGE timestamps w r rest (i + 1) timestamp_idx

/-- The `len(timestamps) < len(sentences)` loop (funasr_demo.py
305-316): sentence `i` pairs with `timestamps[i]` while `i` is in
range; later sentences produce nothing. -/
def mapLoopLT (timestamps : List PyVal) :
    List (List Char) → Nat → Except PyErr (List Segment)
  | [], _ => .ok []
  | sentence :: rest, i =>
    if i < timestamps.length then
      match pyListIndex timestamps (i : Int) with
      | .error e => .error e
      | .ok t =>
        match pySubscript t 0 with
        | .error e => .error e
        | .ok startMs =>
          match pySubscript t (-1) with
          | .error e => .error e
          | .ok endMs =>
            match pyFloat startMs with
            | .error e => .error e
            | .ok sVal =>
              match pyFloat endMs with
              | .error e => .error e
              | .ok eVal =>
                match mapLoopLT timestamps rest (i + 1) with
                | .error e => .error e
                | .ok restSegs =>
                  .ok (⟨sentence, sVal / 1000, eVal / 1000⟩ :: restSegs)
    else mapLoopLT timestamps rest (i + 1)

/-- `_map_sentences_to_timestamps(sentences, timestamps, full_text)`
(funasr_demo.py 259-318).  With an empty sentence list the
`len(timestamps) >= len(sentences)` branch is taken and
`len(timestamps) // len(sentences)` raises `ZeroDivisionError`. -/
def _map_sentences_to_timestamps (sentences : List (List Char))
    (timestamps : List PyVal) (full_text : List Char) :
    Except PyErr (List Segment) :=
  let char_positions := charPositionsLoop full_text sentences 0
  if timestamps.length ≥ sentences.length then
    if sentences.length = 0 then .error .zeroDivisionError
    else
      let words_per_sentence := timestamps.length / sentences.length
      let remainder := timestamps.length % sentences.length
      mapLoopGE timestamps words_per_sentence remainder
        (sentences.zip char_positions) 0 0
  else mapLoopLT timestamps sentences 0

/-! ## Segment extraction — `_segment_text` (funasr_demo.py 155-233) -/

/-- The `for sent in sentence_info` loop (funasr_demo.py 162-175): skip
non-dicts; `sent.get("text", "").strip()` raises `AttributeError` on a
non-string; an entry is emitted when the stripped text is truthy and
`start`/`end` are not `None`, with `float(start)`/`float(end)` taken as
seconds. -/
def sentenceInfoLoop : List PyVal → Except PyErr (List Segment)
  | [] => .ok []
  | sent :: rest =>
    match sent with
    | .dict d =>
      match pyDictGet d "text" (.str "") with
      | .str s =>
        let text := pyStripChars s.toList
        let startVal := pyDictGet d "start" .none
        let endVal := pyDictGet d "end" .none
        if !text.isEmpty && !isPyNone startVal && !isPyNone endVal then
          match pyFloat startVal with
          | .error e => .error e
          | .ok sVal =>
            match pyFloat endVal with
            | .error e => .error e
            | .ok eVal =>
              match sentenceInfoLoop rest with
              | .error e => .error e
              | .ok restSegs => .ok (⟨text, sVal, eVal⟩ :: restSegs)
        else sentenceInfoLoop rest
      | _ => .error PyErr.attributeError
    | _ => sentenceInfoLoop rest

/-- The `for sent in stamp_sents or []` loop (funasr_demo.py 187-202):
skip non-dicts and entries with `start`/`end` `None`; the text is
`f"{text_seg}{punc}".strip()` where falsy fields are replaced by `""`;
milliseconds are divided by 1000. -/
def stampSentsLoop : List PyVal → Except PyErr (List Segment)
  | [] => .ok []
  | sent :: rest =>
    match sent with
    | .dict d =>
      let textSegRaw := pyDictGet d "text_seg" .none
      let text_seg := if pyTruthy textSegRaw then textSegRaw else .str ""
      let puncRaw := pyDictGet d "punc" .none
      let punc := if pyTruthy puncRaw then puncRaw else .str ""
      let startVal := pyDictGet d "start" .none
      let endVal := pyDictGet d "end" .none
      if isPyNone startVal || isPyNone endVal then stampSentsLoop rest
      else
        match pyFloat startVal with
        | .error e => .error e
        | .ok sVal =>
          match pyFloat endVal with
          | .error e => .error e
          | .ok eVal =>
            match stampSentsLoop rest with
            | .error e => .error e
            | .ok restSegs =>
              .ok (⟨pyStripChars (pyStr text_seg ++ pyStr punc).toList,
                sVal / 1000, eVal / 1000⟩ :: restSegs)
    | _ => stampSentsLoop rest

/-- The single-sentence case of the word-timestamp fallback
(funasr_demo.py 220-229): `timestamp[0][0]` to `timestamp[-1][-1]`,
milliseconds divided by 1000. -/
def singleSentenceSegment (text : List Char) (tl : List PyVal) :
    Except PyErr (List Segment) :=
  match pyListIndex tl 0 with
  | .error e => .error e
  | .ok firstTs =>
    match pySubscript firstTs 0 with
    | .error e => .error e
    | .ok startMs =>
      match pyListIndex tl (-1) with
      | .error e => .error e
      | .ok lastTs =>
        match pySubscript lastTs (-1) with
        | .error e => .error e
        | .ok endMs =>
          match pyFloat startMs with
          | .error e => .error e
          | .ok sVal =>
            match pyFloat endMs with
            | .error e => .error e
            | .ok eVal => .ok [⟨text, sVal / 1000, eVal / 1000⟩]

/-- The word-timestamp fallback tier (funasr_demo.py 204-231):
`(res_item.get("text") or "").strip()` (raising `AttributeError` on a
truthy non-string), JSON-decode of a string `timestamp`, then either the
sentence mapper, the single-sentence segment, a zero-width segment for
bare text, or nothing. -/
def segmentTextTier3 (jsonLoads : String → Option PyVal)
    (res_item : List (String × PyVal)) : Except PyErr (List Segment) :=
  let textRaw := recordGet res_item "text"
  match (if pyTruthy textRaw then textRaw else .str "") with
  | .str s =>
    let text := pyStripChars s.toList
    let timestamp := decodeIfStr jsonLoads (recordGet res_item "timestamp")
    match timestamp with
    | .list tl =>
      if !tl.isEmpty && !text.isEmpty then
        let sentences := _split_text_into_sentences text
        if sentences.length > 1 then
          _map_sentences_to_timestamps sentences tl text
        else singleSentenceSegment text tl
      else if !text.isEmpty then .ok [⟨text, 0, 0⟩]
      else .ok []
    | _ =>
      if !text.isEmpty then .ok [⟨text, 0, 0⟩]
      else .ok []
  | _ => .error PyErr.attributeError

/-- `_segment_text(res_item)` (funasr_demo.py 155-233), parameterised by
the external `json.loads` (`Option.none` models a `JSONDecodeError`).
Tier 1 (`sentence_info`) wins if it produces any segment, then tier 2
(`stamp_sents`), then the word-timestamp fallback. -/
def _segment_text (jsonLoads : String → Option PyVal)
    (res_item : List (String × PyVal)) : Except PyErr (List Segment) :=
  let sentence_info := recordGet res_item "sentence_info"
  let tier1 : Except PyErr (List Segment) :=
    match sentence_info with
    | .list xs => if !xs.isEmpty then sentenceInfoLoop xs else .ok []
    | _ => .ok []
  match tier1 with
  | .error e => .error e
  | .ok segs1 =>
    if !segs1.isEmpty then .ok segs1
    else
      let stamp_sents := decodeIfStr jsonLoads (recordGet res_item "stamp_sents")
      let tier2 : Except PyErr (List Segment) :=
        match pyIterElems stamp_sents with
        | some elems => stampSentsLoop elems
        | Option.none => .ok []
      match tier2 with
      | .error e => .error e
      | .ok segs2 =>
        if !segs2.isEmpty then .ok segs2
        else segmentTextTier3 jsonLoads res_item

/-! ## JSON normalisation — `_json_ready` (funasr_service.py 97-111) -/

mutual
/-- `_json_ready(value)` (funasr_service.py 97-111): primitives pass
through; dict values are converted recursively with keys kept as-is;
lists, tuples and sets become lists of converted elements; an object
with a callable `tolist` is converted via `tolist()`; anything else
becomes `str(value)`. -/
def _json_ready : PyVal → PyVal
  | .none => .none
  | .bool b => .bool b
  | .int n => .int n
  | .float q => .float q
  | .str s => .str s
  | .dict es => .dict (jsonReadyEntries es)
  | .list xs => .list (jsonReadyList xs)
  | .tuple xs => .list (jsonReadyList xs)
  | .set xs => .list (jsonReadyList xs)
  | .obj _ (some t) => _json_ready t
  | .obj rep Option.none => .str (pyStr (.obj rep Option.none))

/-- `_json_ready` mapped over container elements. -/
def jsonReadyList : List PyVal → List PyVal
  | [] => []
  | x :: xs => _json_ready x :: jsonReadyList xs

/-- The dict comprehension of `_json_ready`: keys unchanged, values
converted. -/
def jsonReadyEntries : List (PyVal × PyVal) → List (PyVal × PyVal)
  | [] => []
  | (k, v) :: es => (k, _json_ready v) :: jsonReadyEntries es
end

/-! ## Transcription worker — `_prepare_generate_kwargs` and
`_run_transcription` (funasr_service.py 161-226) -/

/-- An error raised by the external `model.generate` call:
`TypeError` (an unsupported keyword argument) or any other exception
with its message. -/
inductive GenErr where
  | typeError
  | otherErr (msg : String)
deriving DecidableEq

/-- The keyword arguments passed to `model.generate`.  The boolean
fields record the presence of the corresponding key — when present its
value is always `True` (funasr_service.py 161-180). -/
structure GenKwargs where
  input : String
  batch_size_s : Option Int
  batch_size_threshold_s : Option Int
  sentence_timestamp : Bool
  word_timestamp : Bool
  return_stamp : Bool
  merge_vad : Bool
  merge_length_s : Option Int
deriving DecidableEq

/-- The recognised transcription options (`payload.options`); `Option.none`
means the key is absent from the request. -/
structure TranscribeOptions where
  batch_size_s : Option Int := Option.none
  batch_size_threshold_s : Option Int := Option.none
  sentence_timestamp : Option Bool := Option.none
  word_timestamp : Option Bool := Option.none
  return_stamp : Option Bool := Option.none
  merge_vad : Option Bool := Option.none
  merge_length_s : Option Int := Option.none
  spk_enable : Option Bool := Option.none
deriving DecidableEq

/-- `_prepare_generate_kwargs(audio, options)` (funasr_service.py
161-180): `batch_size_s`/`batch_size_threshold_s`/`merge_length_s` are
copied when present; `sentence_timestamp` and `return_stamp` default to
true; `word_timestamp` and `merge_vad` default to false. -/
def _prepare_generate_kwargs (audio : String) (opts : TranscribeOptions) :
    GenKwargs where
  input := audio
  batch_size_s := opts.batch_size_s
  batch_size_threshold_s := opts.batch_size_threshold_s
  sentence_timestamp := opts.sentence_timestamp.getD true
  word_timestamp := opts.word_timestamp.getD false
  return_stamp := opts.return_stamp.getD true
  merge_vad := opts.merge_vad.getD false
  merge_length_s := opts.merge_length_s

/-- `kwargs.pop("return_stamp", None)`: the key is removed (its value,
always `True` when present, is what the `is not None` test inspects). -/
def popReturnStamp (k : GenKwargs) : GenKwargs :=
  { k with return_stamp := false }

/-- The `try: model.generate(**kwargs) except TypeError:` retry shim
(funasr_service.py 196-202, identically funasr_demo.py 371-378).  The
second component records the kwargs of every `generate` invocation
made, in order. -/
def generateWithRetry (generate : GenKwargs → Except GenErr (List PyVal))
    (kwargs : GenKwargs) : Except GenErr (List PyVal) × List GenKwargs :=
  match generate kwargs with
  | .ok r => (.ok r, [kwargs])
  | .error .typeError =>
    if kwargs.return_stamp then
      let kwargs2 := popReturnStamp kwargs
      (generate kwargs2, [kwargs, kwargs2])
    else (.error .typeError, [kwargs])
  | .error (.otherErr msg) => (.error (.otherErr msg), [kwargs])

/-- One entry of `STATE.tasks`; `metadataModel`/`metadataOptions` model
the `metadata` dict written on completion. -/
structure TaskEntry where
  status : String
  progress : ℚ
  error : Option String := Option.none
  result : Option PyVal := Option.none
  metadataModel : Option String := Option.none
  metadataOptions : Option TranscribeOptions := Option.none

/-- `str(exc)` for a `generate` failure (the wording of a `TypeError`
produced by the runtime is external; only its presence matters). -/
def genErrMessage : GenErr → String
  | .typeError => "TypeError"
  | .otherErr msg => msg

/-- `_run_transcription(task_id, payload)` (funasr_service.py
183-226), as the transformation of the owning task's entry.
`ensureModel` stands for the lock-guarded `_ensure_model_loaded` call
(raising when the requested handle is absent) and `generate` for the
external model.  Every exception inside the `try` is caught by the
final `except`, which stores `failed` with the message. -/
def runTranscription (ensureModel : Except String Unit)
    (generate : GenKwargs → Except GenErr (List PyVal))
    (modelId : Option String) (audioPath : String) (opts : TranscribeOptions)
    (t0 : TaskEntry) : TaskEntry :=
  let t1 : TaskEntry := { t0 with status := "processing", progress := 5 / 100 }
  match ensureModel with
  | .error msg => { t1 with status := "failed", error := some msg, progress := 1 }
  | .ok _ =>
    let kwargs := _prepare_generate_kwargs audioPath opts
    match (generateWithRetry generate kwargs).1 with
    | .error e =>
      { t1 with status := "failed", error := some (genErrMessage e), progress := 1 }
    | .ok results =>
      match results with
      | [] =>
        { t1 with
          status := "failed"
          error := some "FunASR did not return any results for the provided audio"
          progress := 1 }
      | rcd :: _ =>
        { t1 with
          status := "completed"
          progress := 1
          result := some (_json_ready rcd)
          metadataModel := modelId
          metadataOptions := some opts }

/-! ## Download state — `cancel_download` (funasr_service.py 497-514)
and `_ProgressCallbackInstance.update` (funasr_service.py 290-335) -/

/-- One entry of `STATE.download_states`. -/
structure DownloadEntry where
  status : String
  progress : ℚ
  downloaded_size : Int
  total_size : Int
  download_path : Option String := Option.none
  error : Option String := Option.none

/-- The download-related parts of the service's `RuntimeState`:
`download_states` and `download_cancel_flags`. -/
structure DownloadsState where
  download_states : List (String × DownloadEntry)
  download_cancel_flags : List (String × Bool)

/-- Dictionary lookup in `download_states`. -/
def lookupEntry (m : List (String × DownloadEntry)) (k : String) :
    Option DownloadEntry :=
  (m.find? (fun p => p.1 == k)).map Prod.snd

/-- Dictionary write `m[k] = e`.  The association list is kept
shadowing-free (the new binding in front, stale bindings for the same
key dropped); lookups observe exactly the Python dict contents. -/
def setEntry (m : List (String × DownloadEntry)) (k : String)
    (e : DownloadEntry) : List (String × DownloadEntry) :=
  (k, e) :: m.filter (fun p => p.1 != k)

/-- Dictionary lookup in `download_cancel_flags`. -/
def lookupFlag (m : List (String × Bool)) (k : String) : Option Bool :=
  (m.find? (fun p => p.1 == k)).map Prod.snd

/-- Dictionary write `m[k] = b`, with the same representation as
`setEntry`. -/
def setFlag (m : List (String × Bool)) (k : String) (b : Bool) :
    List (String × Bool) :=
  (k, b) :: m.filter (fun p => p.1 != k)

/-- `cancel_download(model_id)` (funasr_service.py 497-514): with no
entry, or an entry whose status is not `"downloading"`, report failure
and change nothing; otherwise set the cancel flag and overwrite the
entry's status and error. -/
def cancel_download (model_id : String) (st : DownloadsState) :
    Bool × DownloadsState :=
  match lookupEntry st.download_states model_id with
  | Option.none => (false, st)
  | some e =>
    if e.status ≠ "downloading" then (false, st)
    else
      (true,
        { download_states := setEntry st.download_states model_id
            { e with
              status := "failed"
              error := some "Download cancelled by user" }
          download_cancel_flags := setFlag st.download_cancel_flags model_id true })

/-- `_ProgressCallbackInstance.update(n)` (funasr_service.py 290-335):
raise (abort the fetch) when the cancel flag is set; otherwise
accumulate `n` into the job's `downloaded_size`, raise `total_size` to
the running download total when the current file has a positive size,
and recompute `progress = min(99, downloaded/total*100)` (50 when the
total is still zero).  The per-instance `self.downloaded` counter only
feeds logging and is omitted; a missing state entry would raise
`KeyError` at the final write. -/
def progressCallbackUpdate (st : DownloadsState) (model_id : String)
    (file_size n : Int) : Except String DownloadsState :=
  if (lookupFlag st.download_cancel_flags model_id).getD false then
    .error ("Download cancelled for model " ++ model_id)
  else
    match lookupEntry st.download_states model_id with
    | Option.none => .error "KeyError"
    | some e =>
      let total_downloaded := e.downloaded_size + n
      let total_size :=
        if file_size > 0 then max e.total_size total_downloaded else e.total_size
      let progress : ℚ :=
        min 99 (if total_size > 0 then
          (total_downloaded : ℚ) / (total_size : ℚ) * 100 else 50)
      .ok { st with
        download_states := setEntry st.download_states model_id
          { e with
            downloaded_size := total_downloaded
            total_size := total_size
            progress := progress } }

/-- The state `_download_model_sync` installs before fetching
(funasr_service.py 376-381), with the cancel flag cleared by the
`/download-model` endpoint (line 452). -/
def startDownloadState (model_id : String) : DownloadsState where
  download_states :=
    [(model_id, { status := "downloading", progress := 0,
                  downloaded_size := 0, total_size := 0 })]
  download_cancel_flags := [(model_id, false)]

/-- The completion write of `_download_model_sync` (funasr_service.py
398-404): status `"completed"`, progress `100.0`, the download path. -/
def completeDownload (st : DownloadsState) (model_id path : String) :
    Except String DownloadsState :=
  match lookupEntry st.download_states model_id with
  | Option.none => .error "KeyError"
  | some e =>
    .ok { st with
      download_states := setEntry st.download_states model_id
        { e with
          status := "completed"
          progress := 100
          download_path := some path } }

/-- Run a sequence of per-file byte-count callbacks
(`file_size`, `n`) against the download state, collecting the job's
progress value after each callback; an aborting callback ends the run. -/
def runCallbackUpdates (model_id : String) :
    List (Int × Int) → DownloadsState → List ℚ × DownloadsState
  | [], st => ([], st)
  | (file_size, n) :: rest, st =>
    match progressCallbackUpdate st model_id file_size n with
    | .ok st2 =>
      let tail := runCallbackUpdates model_id rest st2
      ((((lookupEntry st2.download_states model_id).map
          (fun e => e.progress)).getD 0) :: tail.1, tail.2)
    | .error _ => ([], st)

/-- The progress reported after `completeDownload`, `Option.none` when the
entry is missing or completion raised. -/
def completedProgress (st : DownloadsState) (model_id path : String) :
    Option ℚ :=
  match completeDownload st model_id path with
  | .ok stc => (lookupEntry stc.download_states model_id).map (fun e => e.progress)
  | .error _ => Option.none

/-! ## Auxiliary specification-side definitions -/

deriving instance DecidableEq for Except

/-- Typed millisecond word span `[startMs, endMs]` as the dynamic value
the FunASR `timestamp` field carries. -/
def msPair (p : Int × Int) : PyVal := .list [.int p.1, .int p.2]

/-- Start index of group `i` when `n` timestamps are split over `k`
sentences front-loadedly (claim C3's partition). -/
def groupStart (n k i : Nat) : Nat := i * (n / k) + min i (n % k)

/-- Size of group `i` of the front-loaded partition: `floor(n/k)` plus
one for the first `n mod k` groups. -/
def groupSize (n k i : Nat) : Nat := n / k + (if i < n % k then 1 else 0)

/-- `float(v)` succeeds. -/
def floatable (v : PyVal) : Bool :=
  match pyFloat v with
  | .ok _ => true
  | .error _ => false

/-- A `sentence_info` entry the extraction loop handles without
raising: dicts need a string `text` (the default `""` counts), and when
the entry is selected for emission its `start`/`end` must convert by
`float`.  Non-dict entries are skipped and are always safe. -/
def wfSentenceInfoEntry (sent : PyVal) : Bool :=
  match sent with
  | .dict d =>
    match pyDictGet d "text" (.str "") with
    | .str s =>
      let text := pyStripChars s.toList
      let startVal := pyDictGet d "start" .none
      let endVal := pyDictGet d "end" .none
      if !text.isEmpty && !isPyNone startVal && !isPyNone endVal then
        floatable startVal && floatable endVal
      else true
    | _ => false
  | _ => true

/-- A `stamp_sents` entry the loop handles without raising: when
`start`/`end` are both non-`None` they must convert by `float`. -/
def wfStampSentsEntry (sent : PyVal) : Bool :=
  match sent with
  | .dict d =>
    let startVal := pyDictGet d "start" .none
    let endVal := pyDictGet d "end" .none
    if isPyNone startVal || isPyNone endVal then true
    else floatable startVal && floatable endVal
  | _ => true

/-- A `timestamp` element the mapper can consume: a non-empty list
whose first and last elements convert by `float`. -/
def wfTimestampEntry (t : PyVal) : Bool :=
  match t with
  | .list ys =>
    !ys.isEmpty && floatable (ys.getD 0 .none) &&
      floatable (ys.getD (ys.length - 1) .none)
  | _ => false

/-- Well-formedness of a result record for claim C1 (amended): every
field `_segment_text` inspects has the shape the code can process
without raising — `sentence_info` entries per `wfSentenceInfoEntry`,
`stamp_sents` entries (after JSON decoding) per `wfStampSentsEntry`, a
`text` field that is a string whenever truthy, and `timestamp` elements
(after JSON decoding) per `wfTimestampEntry` whenever `timestamp` is a
list. -/
def wfRecord (jsonLoads : String → Option PyVal)
    (res_item : List (String × PyVal)) : Bool :=
  (match recordGet res_item "sentence_info" with
   | .list xs => xs.all wfSentenceInfoEntry
   | _ => true) &&
  (match pyIterElems (decodeIfStr jsonLoads (recordGet res_item "stamp_sents")) with
   | some elems => elems.all wfStampSentsEntry
   | Option.none => true) &&
  (!pyTruthy (recordGet res_item "text") || isPyStr (recordGet res_item "text")) &&
  (match decodeIfStr jsonLoads (recordGet res_item "timestamp") with
   | .list tl => tl.all wfTimestampEntry
   | _ => true)

/-- A `sentence_info` entry that is valid in the amended sense of claim
C2: a dict whose `text` is a string that stays non-empty after
stripping and whose `start`/`end` are non-`None` values accepted by
`float`. -/
def validSegEntry (sent : PyVal) : Bool :=
  match sent with
  | .dict d =>
    (match pyDictGet d "text" (.str "") with
     | .str s => !(pyStripChars s.toList).isEmpty
     | _ => false) &&
    !isPyNone (pyDictGet d "start" .none) && !isPyNone (pyDictGet d "end" .none) &&
    floatable (pyDictGet d "start" .none) && floatable (pyDictGet d "end" .none)
  | _ => false

/-- The segment a valid `sentence_info` entry produces. -/
def segOfEntry (sent : PyVal) : Segment :=
  match sent with
  | .dict d =>
    { text :=
        match pyDictGet d "text" (.str "") with
        | .str s => pyStripChars s.toList
        | _ => []
      start_sec := ((pyFloat (pyDictGet d "start" .none)).toOption.getD 0)
      end_sec := ((pyFloat (pyDictGet d "end" .none)).toOption.getD 0) }
  | _ => { text := [], start_sec := 0, end_sec := 0 }

mutual
/-- Claim C10's target shape: the value is built from `None`, bools,
ints, floats, strings, lists and dicts only. -/
def jsonReadyShape : PyVal → Bool
  | .none => true
  | .bool _ => true
  | .int _ => true
  | .float _ => true
  | .str _ => true
  | .list xs => jsonReadyShapeList xs
  | .tuple _ => false
  | .set _ => false
  | .dict es => jsonReadyShapeEntries es
  | .obj _ _ => false

/-- `jsonReadyShape` over container elements. -/
def jsonReadyShapeList : List PyVal → Bool
  | [] => true
  | x :: xs => jsonReadyShape x && jsonReadyShapeList xs

/-- `jsonReadyShape` over dict entries (keys and values). -/
def jsonReadyShapeEntries : List (PyVal × PyVal) → Bool
  | [] => true
  | (k, v) :: es => jsonReadyShape k && jsonReadyShape v && jsonReadyShapeEntries es
end

/-- The primitive values (`None`, bools, ints, floats, strings), which
`_json_ready` passes through unchanged. -/
def isPrimitiveVal : PyVal → Bool
  | .none => true
  | .bool _ => true
  | .int _ => true
  | .float _ => true
  | .str _ => true
  | _ => false

mutual
/-- All dict keys occurring anywhere inside the value are primitive
(the amended hypothesis of claim C10: `_json_ready` copies dict keys
unconverted). -/
def primKeysVal : PyVal → Bool
  | .dict es => primKeysEntries es
  | .list xs => primKeysList xs
  | .tuple xs => primKeysList xs
  | .set xs => primKeysList xs
  | .obj _ (some t) => primKeysVal t
  | _ => true

/-- `primKeysVal` over container elements. -/
def primKeysList : List PyVal → Bool
  | [] => true
  | x :: xs => primKeysVal x && primKeysList xs

/-- `primKeysVal` over dict entries: the key must itself be primitive. -/
def primKeysEntries : List (PyVal × PyVal) → Bool
  | [] => true
  | (k, v) :: es => isPrimitiveVal k && primKeysVal v && primKeysEntries es
end

/-! ## Claim C10 — `_json_ready` produces JSON-serialisable shapes -/

/-- A primitive value already has the JSON-ready shape. -/
lemma jsonReadyShape_of_primitive (v : PyVal) (h : isPrimitiveVal v = true) :
    jsonReadyShape v = true := by
  cases v <;> simp_all [isPrimitiveVal, jsonReadyShape]

mutual
/-- `_json_ready` yields the JSON-ready shape on every value whose dict
keys are all primitive. -/
def jsonReadyConvVal : (v : PyVal) → primKeysVal v = true →
    jsonReadyShape (_json_ready v) = true
  | .none, _ => rfl
  | .bool _, _ => rfl
  | .int _, _ => rfl
  | .float _, _ => rfl
  | .str _, _ => rfl
  | .list xs, h => by
    simpa [_json_ready, jsonReadyShape] using
      jsonReadyConvList xs (by simpa [primKeysVal] using h)
  | .tuple xs, h => by
    simpa [_json_ready, jsonReadyShape] using
      jsonReadyConvList xs (by simpa [primKeysVal] using h)
  | .set xs, h => by
    simpa [_json_ready, jsonReadyShape] using
      jsonReadyConvList xs (by simpa [primKeysVal] using h)
  | .dict es, h => by
    simpa [_json_ready, jsonReadyShape] using
      jsonReadyConvEntries es (by simpa [primKeysVal] using h)
  | .obj rep (some t), h => by
    simpa [_json_ready] using jsonReadyConvVal t (by simpa [primKeysVal] using h)
  | .obj _ Option.none, _ => rfl

/-- Elementwise version of `jsonReadyConvVal`. -/
def jsonReadyConvList : (xs : List PyVal) → primKeysList xs = true →
    jsonReadyShapeList (jsonReadyList xs) = true
  | [], _ => rfl
  | x :: xs, h => by
    have h2 := h
    simp only [primKeysList, Bool.and_eq_true] at h2
    simp only [jsonReadyList, jsonReadyShapeList, Bool.and_eq_true]
    exact ⟨jsonReadyConvVal x h2.1, jsonReadyConvList xs h2.2⟩

/-- Entrywise version of `jsonReadyConvVal`. -/
def jsonReadyConvEntries : (es : List (PyVal × PyVal)) → primKeysEntries es = true →
    jsonReadyShapeEntries (jsonReadyEntries es) = true
  | [], _ => rfl
  | (k, v) :: es, h => by
    have h2 := h
    simp only [primKeysEntries, Bool.and_eq_true] at h2
    simp only [jsonReadyEntries, jsonReadyShapeEntries, Bool.and_eq_true]
    exact ⟨⟨jsonReadyShape_of_primitive k h2.1.1, jsonReadyConvVal v h2.1.2⟩,
      jsonReadyConvEntries es h2.2⟩
end

/-- C10 (counterexample): `_json_ready` copies dict keys unconverted, so
a dict keyed by a tuple — a legal finite, acyclic Python value — is
returned with the tuple key intact, and the result is not built from
`None`/bool/int/float/str/list/dict alone (nor is it JSON-serialisable). -/
theorem jsonReady_tuple_key_counterexample :
    _json_ready (.dict [(.tuple [.int 1, .int 2], .int 3)])
      = .dict [(.tuple [.int 1, .int 2], .int 3)] ∧
    jsonReadyShape (_json_ready (.dict [(.tuple [.int 1, .int 2], .int 3)])) = false := by
  exact ⟨rfl, rfl⟩

/-- C10 (amended): for every finite, acyclic input value all of whose
dict keys are primitive, `_json_ready` returns a value built only from
`None`, booleans, integers, floats, strings, lists and dictionaries
(tuples and sets become lists, objects with a `tolist` method are
recursively converted via it, and any other value becomes its string
form); dict keys in general are passed through unchanged. -/
theorem jsonReady_shape_of_primKeys (v : PyVal) (h : primKeysVal v = true) :
    jsonReadyShape (_json_ready v) = true :=
  jsonReadyConvVal v h

/-- Witness for `jsonReady_shape_of_primKeys` at a concrete nested value. -/
theorem jsonReady_shape_of_primKeys_witness :
    primKeysVal (.dict [(.str "a", .tuple [.int 1, .obj "x" (some (.set [.float 2]))])])
        = true ∧
    jsonReadyShape (_json_ready
      (.dict [(.str "a", .tuple [.int 1, .obj "x" (some (.set [.float 2]))])])) = true :=
  ⟨rfl, jsonReady_shape_of_primKeys _ rfl⟩

/-! ## Claim C4 — `_split_text_into_sentences` -/

/-- The splitter loop, characterised as a `filterMap` over fragment
indices. -/
lemma splitSentencesLoop_eq_filterMap (text : List Char) (total : Nat) :
    ∀ (frags : List (List Char)) (i0 : Nat),
      splitSentencesLoop text total frags i0 =
        (List.range frags.length).filterMap (fun j =>
          let sent := pyStripChars (frags.getD j [])
          if sent.isEmpty then Option.none
          else some (if i0 + j < total - 1 then attachSplitPunct text sent else sent))
  | [], i0 => by simp [splitSentencesLoop]
  | frag :: rest, i0 => by
    have ih := splitSentencesLoop_eq_filterMap text total rest (i0 + 1)
    simp only [splitSentencesLoop, ih]
    rw [List.length_cons, List.range_succ_eq_map, List.filterMap_cons,
      List.filterMap_map]
    have hfe : ((fun j =>
          let sent := pyStripChars ((frag :: rest).getD j [])
          if sent.isEmpty then Option.none
          else some (if i0 + j < total - 1 then attachSplitPunct text sent else sent))
            ∘ Nat.succ)
        = (fun j =>
          let sent := pyStripChars (rest.getD j [])
          if sent.isEmpty then Option.none
          else some (if i0 + 1 + j < total - 1 then attachSplitPunct text sent
            else sent)) := by
      funext j
      have harith : i0 + (j + 1) = i0 + 1 + j := by omega
      simp [Function.comp, List.getD_cons_succ, Nat.succ_eq_add_one, harith]
    rw [hfe]
    by_cases h : (pyStripChars frag).isEmpty
    · simp [List.getD_cons_zero, h]
    · simp [List.getD_cons_zero, h]

/-- C4 (amended): the splitter cuts `text` at exactly the characters
`。！？；`, trims each fragment and drops the empty ones; every kept
fragment except the final one is extended by the character that follows
the first occurrence of the trimmed fragment in `text` when that
character is one of `。！？；` (this is the terminating punctuation
exactly when that first occurrence is the fragment's own split
position); when nothing remains the whole text is returned as one
sentence, so the result is never empty. -/
theorem split_text_characterisation (text : List Char) :
    _split_text_into_sentences text =
      (let frags := reSplitSentencePunct text
       let kept := (List.range frags.length).filterMap (fun j =>
         let sent := pyStripChars (frags.getD j [])
         if sent.isEmpty then Option.none
         else some (if j < frags.length - 1 then attachSplitPunct text sent else sent))
       if kept.isEmpty then [text] else kept) ∧
    _split_text_into_sentences text ≠ [] := by
  have hloop := splitSentencesLoop_eq_filterMap text
    (reSplitSentencePunct text).length (reSplitSentencePunct text) 0
  simp only [Nat.zero_add] at hloop
  constructor
  · simp only [_split_text_into_sentences, hloop]
  · simp only [_split_text_into_sentences, hloop]
    split
    · simp
    · simp_all [List.isEmpty_iff]

/-- C4 (counterexample): on `"abcab。ab！"` the fragment `"ab"` first
occurs at position 0 inside `"abcab"`, so `text.find` locates the wrong
occurrence and the terminating `！` is never re-attached — the claimed
output would end in `"ab！"`. -/
theorem split_text_counterexample :
    _split_text_into_sentences "abcab。ab！".toList
        = ["abcab。".toList, "ab".toList] ∧
    _split_text_into_sentences "abcab。ab！".toList
        ≠ ["abcab。".toList, "ab！".toList] := by
  constructor <;> decide

/-! ## Claim C6 — the `TypeError` retry shim -/

/-- C6 (counterexample): a model that rejects the requested `merge_vad`
option (raising `TypeError`), on a request that did not ask for
`return_stamp`, is not retried at all — the trace holds a single
invocation and the task fails — even though repeating the call with the
rejected option removed would succeed.  The shim only ever strips
`return_stamp`, not "the rejected option". -/
theorem generate_retry_counterexample :
    (generateWithRetry
        (fun kw => if kw.merge_vad then .error .typeError else .ok [PyVal.none])
        (_prepare_generate_kwargs "a.wav"
          { merge_vad := some true, return_stamp := some false })).1
      = .error .typeError ∧
    (generateWithRetry
        (fun kw => if kw.merge_vad then .error .typeError else .ok [PyVal.none])
        (_prepare_generate_kwargs "a.wav"
          { merge_vad := some true, return_stamp := some false })).2.length = 1 ∧
    (fun kw => if kw.merge_vad then (.error .typeError : Except GenErr (List PyVal))
        else .ok [PyVal.none])
      { _prepare_generate_kwargs "a.wav"
          { merge_vad := some true, return_stamp := some false } with
        merge_vad := false }
      = .ok [PyVal.none] := by
  refine ⟨rfl, rfl, rfl⟩

/-- C6 (amended): when the first `generate` call raises `TypeError` and
the request carried the `return_stamp` option, the worker retries
exactly once, with `return_stamp` (and only it) removed; the task then
completes exactly when the retried call returns a non-empty result, and
fails with the retry's error when the retried call is also rejected.
When `return_stamp` was not requested, no retry happens at all. -/
theorem generate_retry_amended (g : GenKwargs → Except GenErr (List PyVal))
    (audio : String) (opts : TranscribeOptions) (mid : Option String)
    (t0 : TaskEntry)
    (h1 : g (_prepare_generate_kwargs audio opts) = .error .typeError)
    (h2 : (_prepare_generate_kwargs audio opts).return_stamp = true) :
    (generateWithRetry g (_prepare_generate_kwargs audio opts)).2
        = [_prepare_generate_kwargs audio opts,
           popReturnStamp (_prepare_generate_kwargs audio opts)] ∧
    (generateWithRetry g (_prepare_generate_kwargs audio opts)).1
        = g (popReturnStamp (_prepare_generate_kwargs audio opts)) ∧
    (∀ rcd rest, g (popReturnStamp (_prepare_generate_kwargs audio opts))
          = .ok (rcd :: rest) →
      (runTranscription (.ok ()) g mid audio opts t0).status = "completed") ∧
    (∀ e, g (popReturnStamp (_prepare_generate_kwargs audio opts)) = .error e →
      (runTranscription (.ok ()) g mid audio opts t0).status = "failed" ∧
      (runTranscription (.ok ()) g mid audio opts t0).error
          = some (genErrMessage e)) := by
  have hretry : generateWithRetry g (_prepare_generate_kwargs audio opts)
      = (g (popReturnStamp (_prepare_generate_kwargs audio opts)),
         [_prepare_generate_kwargs audio opts,
          popReturnStamp (_prepare_generate_kwargs audio opts)]) := by
    simp [generateWithRetry, h1, h2]
  refine ⟨by simp [hretry], by simp [hretry], ?_, ?_⟩
  · intro rcd rest hres
    simp [runTranscription, hretry, hres]
  · intro e hres
    cases e <;> simp [runTranscription, hretry, hres, genErrMessage]

/-- Witness for `generate_retry_amended`: a model that rejects
`return_stamp` once; the retried call (with it stripped) succeeds and
the task completes. -/
theorem generate_retry_amended_witness :
    (generateWithRetry
        (fun kw => if kw.return_stamp then .error .typeError else .ok [PyVal.none])
        (_prepare_generate_kwargs "a.wav" {})).2
      = [_prepare_generate_kwargs "a.wav" {},
         popReturnStamp (_prepare_generate_kwargs "a.wav" {})] ∧
    (runTranscription (.ok ())
        (fun kw => if kw.return_stamp then .error .typeError else .ok [PyVal.none])
        Option.none "a.wav" {} { status := "queued", progress := 0 }).status
      = "completed" := by
  have h := generate_retry_amended
    (fun kw => if kw.return_stamp then .error .typeError else .ok [PyVal.none])
    "a.wav" {} Option.none { status := "queued", progress := 0 } rfl rfl
  exact ⟨h.1, h.2.2.1 PyVal.none [] rfl⟩

/-! ## Claim C7 — empty model results -/

/-- C7 (counterexample): when the model returns no records, the worker
raises the `RuntimeError` internally and the task IS marked `failed`
(with progress 1 and the error message), contradicting the claim that
an empty result is surfaced as a non-failed degraded result. -/
theorem empty_result_counterexample :
    (runTranscription (.ok ()) (fun _ => .ok []) Option.none "a.wav" {}
        { status := "queued", progress := 0 }).status = "failed" ∧
    (runTranscription (.ok ()) (fun _ => .ok []) Option.none "a.wav" {}
        { status := "queued", progress := 0 }).error
      = some "FunASR did not return any results for the provided audio" ∧
    (runTranscription (.ok ()) (fun _ => .ok []) Option.none "a.wav" {}
        { status := "queued", progress := 0 }).progress = 1 := by
  refine ⟨rfl, rfl, rfl⟩

/-- C7 (amended): an empty model result makes the worker mark the task
`failed` with progress 1 and the distinguishable message "FunASR did
not return any results for the provided audio"; the exception never
propagates out of the worker — every run ends with the task in
`completed` or `failed`. -/
theorem empty_result_amended (ens : Except String Unit)
    (g : GenKwargs → Except GenErr (List PyVal)) (mid : Option String)
    (audio : String) (opts : TranscribeOptions) (t0 : TaskEntry) :
    ((runTranscription ens g mid audio opts t0).status = "completed" ∨
     (runTranscription ens g mid audio opts t0).status = "failed") ∧
    ((generateWithRetry g (_prepare_generate_kwargs audio opts)).1 = .ok [] →
      ens = .ok () →
      (runTranscription ens g mid audio opts t0).status = "failed" ∧
      (runTranscription ens g mid audio opts t0).error
          = some "FunASR did not return any results for the provided audio" ∧
      (runTranscription ens g mid audio opts t0).progress = 1) := by
  constructor
  · cases ens with
    | error msg => simp [runTranscription]
    | ok u =>
      cases hres : (generateWithRetry g (_prepare_generate_kwargs audio opts)).1 with
      | error e => simp [runTranscription, hres]
      | ok results => cases results <;> simp [runTranscription, hres]
  · intro hempty hens
    subst hens
    simp [runTranscription, hempty]

/-- Witness for `empty_result_amended` at a concrete empty-result model. -/
theorem empty_result_amended_witness :
    (runTranscription (.ok ()) (fun _ => .ok []) Option.none "b.wav" {}
        { status := "queued", progress := 0 }).status = "failed" ∧
    (runTranscription (.ok ()) (fun _ => .ok []) Option.none "b.wav" {}
        { status := "queued", progress := 0 }).error
      = some "FunASR did not return any results for the provided audio" ∧
    (runTranscription (.ok ()) (fun _ => .ok []) Option.none "b.wav" {}
        { status := "queued", progress := 0 }).progress = 1 :=
  (empty_result_amended (.ok ()) (fun _ => .ok []) Option.none "b.wav" {}
    { status := "queued", progress := 0 }).2 rfl rfl

/-! ## Claim C8 — download cancellation -/

/-- Reading back a written download entry. -/
lemma lookupEntry_setEntry (m : List (String × DownloadEntry)) (k : String)
    (e : DownloadEntry) : lookupEntry (setEntry m k e) k = some e := by
  simp [lookupEntry, setEntry]

/-- Reading back a written cancel flag. -/
lemma lookupFlag_setFlag (m : List (String × Bool)) (k : String) (b : Bool) :
    lookupFlag (setFlag m k b) k = some b := by
  simp [lookupFlag, setFlag]

/-- C8: cancelling is effective exactly while the entry's status is
`"downloading"`.  In that case `cancel_download` reports success, sets
the cancellation flag, and the entry becomes `failed` with the
cancellation message "Download cancelled by user"; any subsequent
per-file byte-count callback consults the flag and aborts the fetch
with a cancellation error.  For an unknown identifier, or one whose
status is not `"downloading"`, it reports failure and returns the state
entirely unchanged. -/
theorem cancel_download_behaviour (st : DownloadsState) (model_id : String) :
    ((∀ e, lookupEntry st.download_states model_id = some e →
        e.status ≠ "downloading") →
      cancel_download model_id st = (false, st)) ∧
    (∀ e, lookupEntry st.download_states model_id = some e →
      e.status = "downloading" →
      (cancel_download model_id st).1 = true ∧
      lookupFlag (cancel_download model_id st).2.download_cancel_flags model_id
          = some true ∧
      lookupEntry (cancel_download model_id st).2.download_states model_id
          = some { e with
                   status := "failed"
                   error := some "Download cancelled by user" } ∧
      (∀ file_size n,
        progressCallbackUpdate (cancel_download model_id st).2 model_id file_size n
          = .error ("Download cancelled for model " ++ model_id))) := by
  constructor
  · intro hna
    cases hlook : lookupEntry st.download_states model_id with
    | none => simp [cancel_download, hlook]
    | some e =>
      have hne := hna e hlook
      simp [cancel_download, hlook, hne]
  · intro e hlook hdl
    have hcancel : cancel_download model_id st =
        (true,
          { download_states := setEntry st.download_states model_id
              { e with
                status := "failed"
                error := some "Download cancelled by user" }
            download_cancel_flags :=
              setFlag st.download_cancel_flags model_id true }) := by
      simp [cancel_download, hlook, hdl]
    refine ⟨by simp [hcancel], ?_, ?_, ?_⟩
    · simp [hcancel, lookupFlag_setFlag]
    · simp [hcancel, lookupEntry_setEntry]
    · intro file_size n
      simp [progressCallbackUpdate, hcancel, lookupFlag_setFlag]

/-- Witness for `cancel_download_behaviour`: cancelling a downloading
entry succeeds and the next callback aborts. -/
theorem cancel_download_behaviour_witness :
    (cancel_download "m"
        { download_states := [("m", { status := "downloading", progress := 0,
                                      downloaded_size := 0, total_size := 0 })]
          download_cancel_flags := [("m", false)] }).1 = true ∧
    progressCallbackUpdate
        (cancel_download "m"
          { download_states := [("m", { status := "downloading", progress := 0,
                                        downloaded_size := 0, total_size := 0 })]
            download_cancel_flags := [("m", false)] }).2 "m" 100 10
      = .error ("Download cancelled for model " ++ "m") := by
  have h := (cancel_download_behaviour
    { download_states := [("m", { status := "downloading", progress := 0,
                                  downloaded_size := 0, total_size := 0 })]
      download_cancel_flags := [("m", false)] } "m").2
    { status := "downloading", progress := 0, downloaded_size := 0, total_size := 0 }
    (by simp [lookupEntry]) rfl
  exact ⟨h.1, h.2.2.2 100 10⟩

/-! ## Claim C2 — `sentence_info` extraction -/

/-- On a list of valid entries the `sentence_info` loop returns exactly
one segment per entry, in order. -/
lemma sentenceInfoLoop_valid : ∀ (entries : List PyVal),
    (∀ s ∈ entries, validSegEntry s = true) →
    sentenceInfoLoop entries = .ok (entries.map segOfEntry)
  | [], _ => rfl
  | sent :: rest, h => by
    have hs := h sent (List.mem_cons_self sent rest)
    have hrest := sentenceInfoLoop_valid rest
      (fun s hmem => h s (List.mem_cons_of_mem sent hmem))
    cases sent with
    | dict d =>
      simp only [validSegEntry, Bool.and_eq_true] at hs
      cases htext : pyDictGet d "text" (.str "") with
      | str s =>
        rw [htext] at hs
        cases hfs : pyFloat (pyDictGet d "start" .none) with
        | error e => simp [floatable, hfs] at hs
        | ok sVal =>
          cases hfe : pyFloat (pyDictGet d "end" .none) with
          | error e => simp [floatable, hfe] at hs
          | ok eVal =>
            have hempty : (pyStripChars s.toList).isEmpty = false := by
              have h1 := hs.1.1.1.1
              simpa using h1
            have hne : pyStripChars s.toList ≠ [] := by
              intro hnil
              rw [hnil] at hempty
              simp at hempty
            simp [sentenceInfoLoop, htext, hempty, hs.1.1.1.2, hs.1.1.2, hfs, hfe,
              hrest, segOfEntry, Except.toOption]
            exact hne
      | _ =>
        rw [htext] at hs
        simp at hs
    | _ => simp [validSegEntry] at hs

/-- C2 (amended): for every record whose `sentence_info` field is a
non-empty list of N entries that are valid in the strengthened sense —
a dict whose `text` is a string that is non-empty after trimming and
whose `start`/`end` are non-null values `float` accepts — the extractor
returns exactly N segments, in input order, the i-th carrying the i-th
entry's trimmed text, `startSec = float(start)` and
`endSec = float(end)` (so `startSec ≤ endSec` holds exactly when the
entry satisfies `start ≤ end`; the code never checks or enforces this
ordering). -/
theorem sentence_info_extraction (jsonLoads : String → Option PyVal)
    (res_item : List (String × PyVal)) (entries : List PyVal)
    (h1 : recordGet res_item "sentence_info" = .list entries)
    (h2 : entries ≠ [])
    (h3 : ∀ s ∈ entries, validSegEntry s = true) :
    _segment_text jsonLoads res_item = .ok (entries.map segOfEntry) ∧
    (entries.map segOfEntry).length = entries.length := by
  have hloop := sentenceInfoLoop_valid entries h3
  have hne : entries.isEmpty = false := by
    cases entries with
    | nil => exact absurd rfl h2
    | cons a l => rfl
  have hmapne : (entries.map segOfEntry).isEmpty = false := by
    cases entries with
    | nil => exact absurd rfl h2
    | cons a l => rfl
  refine ⟨?_, List.length_map entries segOfEntry⟩
  simp only [_segment_text, h1, hne, Bool.not_false, if_true, hloop, hmapne]

/-- Witness for `sentence_info_extraction` at one valid concrete entry. -/
theorem sentence_info_extraction_witness :
    _segment_text (fun _ => Option.none)
        [("sentence_info", .list [.dict [(.str "text", .str "ok"),
          (.str "start", .int 1), (.str "end", .int 2)]])]
      = .ok ([PyVal.dict [(.str "text", .str "ok"),
          (.str "start", .int 1), (.str "end", .int 2)]].map segOfEntry) ∧
    ([PyVal.dict [(.str "text", .str "ok"),
        (.str "start", .int 1), (.str "end", .int 2)]].map segOfEntry).length
      = [PyVal.dict [(.str "text", .str "ok"),
          (.str "start", .int 1), (.str "end", .int 2)]].length :=
  sentence_info_extraction (fun _ => Option.none) _ _ rfl
    (List.cons_ne_nil _ _) (by decide)

/-- C2 (counterexample): the record's `sentence_info` holds exactly two
entries with non-null `text`, `start` and `end` — valid in the claim's
sense — yet only one segment comes back (the whitespace-only text is
dropped), and that segment has `startSec = 5 > 2 = endSec`, refuting
both the exact-count and the `startSec ≤ endSec` parts of the claim. -/
theorem sentence_info_count_counterexample :
    _segment_text (fun _ => Option.none)
        [("sentence_info", .list [
          .dict [(.str "text", .str " "), (.str "start", .int 0), (.str "end", .int 1)],
          .dict [(.str "text", .str "hi"), (.str "start", .int 5), (.str "end", .int 2)]])]
      = .ok [{ text := ['h', 'i'], start_sec := 5, end_sec := 2 }] ∧
    ¬ ((5 : ℚ) ≤ (2 : ℚ)) := by
  constructor
  · simp +decide [_segment_text, sentenceInfoLoop, recordGet, pyDictGet, pyStripChars,
      pyFloat, isPyNone, Segment.mk.injEq]
  · norm_num

/-! ## Claim C5 — fewer timestamps than sentences -/

/-- Reading a mapped timestamp list. -/
lemma getD_map_msPair (ps : List (Int × Int)) (i : Nat) (hi : i < ps.length) :
    (ps.map msPair).getD i PyVal.none = msPair (ps.getD i (0, 0)) := by
  rw [List.getD_eq_getElem?_getD, List.getD_eq_getElem?_getD, List.getElem?_map,
    List.getElem?_eq_getElem hi]
  simp

/-- `[startMs, endMs][0]`. -/
lemma pySubscript_msPair_zero (p : Int × Int) :
    pySubscript (msPair p) 0 = .ok (.int p.1) := rfl

/-- `[startMs, endMs][-1]`. -/
lemma pySubscript_msPair_last (p : Int × Int) :
    pySubscript (msPair p) (-1) = .ok (.int p.2) := rfl

/-- Indexing a list by an in-range natural number. -/
lemma pyListIndex_nat (xs : List PyVal) (i : Nat) (hi : i < xs.length) :
    pyListIndex xs (i : Int) = .ok (xs.getD i PyVal.none) := by
  have h0 : ¬ ((i : Int) < 0) := by omega
  have hcond : (0 : Int) ≤ (i : Int) ∧ (i : Int) < (xs.length : Int) := by
    constructor
    · omega
    · exact_mod_cast hi
  simp [pyListIndex, h0, hcond]

/-- Indexing a non-empty list by `-1` yields its last element. -/
lemma pyListIndex_neg_one (xs : List PyVal) (h : xs ≠ []) :
    pyListIndex xs (-1) = .ok (xs.getD (xs.length - 1) PyVal.none) := by
  have hlen : 1 ≤ xs.length := List.length_pos.mpr h
  have h0 : (-1 : Int) < 0 := by omega
  have hcond : (0 : Int) ≤ (-1 : Int) + (xs.length : Int) ∧
      (-1 : Int) + (xs.length : Int) < (xs.length : Int) := by omega
  have htn : ((-1 : Int) + (xs.length : Int)).toNat = xs.length - 1 := by omega
  simp [pyListIndex, h0, hcond, htn]

/-- `float` of an integer. -/
lemma pyFloat_int (n : Int) : pyFloat (.int n) = .ok (n : ℚ) := rfl

/-- The under-supplied mapping loop, characterised: starting at index
`i`, it emits one segment per remaining sentence while timestamps
last. -/
lemma mapLoopLT_formula (ps : List (Int × Int)) :
    ∀ (rem : List (List Char)) (i : Nat),
      mapLoopLT (ps.map msPair) rem i =
        .ok ((List.range (min rem.length (ps.length - i))).map (fun j =>
          { text := rem.getD j []
            start_sec := ((ps.getD (i + j) (0, 0)).1 : ℚ) / 1000
            end_sec := ((ps.getD (i + j) (0, 0)).2 : ℚ) / 1000 }))
  | [], i => by simp [mapLoopLT]
  | s :: rest, i => by
    have ih := mapLoopLT_formula ps rest (i + 1)
    by_cases hi : i < ps.length
    · have hcond : i < (ps.map msPair).length := by simpa using hi
      simp only [mapLoopLT, hcond, if_true,
        pyListIndex_nat (ps.map msPair) i hcond, getD_map_msPair ps i hi,
        pySubscript_msPair_zero, pySubscript_msPair_last, pyFloat_int, ih]
      have hmin : min (rest.length + 1) (ps.length - i)
          = min rest.length (ps.length - (i + 1)) + 1 := by omega
      simp only [List.length_cons, hmin, List.range_succ_eq_map, List.map_cons,
        List.map_map, Except.ok.injEq, List.cons.injEq]
      constructor
      · simp
      · apply List.map_congr_left
        intro j _
        have harith : i + (j + 1) = i + 1 + j := by omega
        simp [Function.comp, List.getD_cons_succ, harith]
    · have hcond : ¬ i < (ps.map msPair).length := by simpa using hi
      simp only [mapLoopLT, hcond, if_false, ih]
      have h1 : min rest.length (ps.length - (i + 1)) = 0 := by omega
      have h2 : min (rest.length + 1) (ps.length - i) = 0 := by omega
      simp [h1, h2]

/-- C5: with fewer timestamps than sentences the mapper pairs sentence
`i` with timestamp `i` one-to-one for `i < n`, each segment spanning
that timestamp's start to its end in seconds; sentences with index
`≥ n` are absent, and no error is raised. -/
theorem map_fewer_timestamps (ss : List (List Char)) (ps : List (Int × Int))
    (ft : List Char) (h : ps.length < ss.length) :
    _map_sentences_to_timestamps ss (ps.map msPair) ft =
      .ok ((List.range ps.length).map (fun j =>
        { text := ss.getD j []
          start_sec := ((ps.getD j (0, 0)).1 : ℚ) / 1000
          end_sec := ((ps.getD j (0, 0)).2 : ℚ) / 1000 })) ∧
    ((List.range ps.length).map (fun j =>
      ({ text := ss.getD j []
         start_sec := ((ps.getD j (0, 0)).1 : ℚ) / 1000
         end_sec := ((ps.getD j (0, 0)).2 : ℚ) / 1000 } : Segment))).length
      = ps.length := by
  have hge : ¬ ((ps.map msPair).length ≥ ss.length) := by
    simp only [List.length_map]
    omega
  constructor
  · simp only [_map_sentences_to_timestamps]
    rw [if_neg hge, mapLoopLT_formula ps ss 0]
    simp [min_eq_right (Nat.le_of_lt h)]
  · simp

/-- Witness for `map_fewer_timestamps`: three sentences, two
timestamps. -/
theorem map_fewer_timestamps_witness :
    _map_sentences_to_timestamps [['a'], ['b'], ['c']]
        ([((0 : Int), (1000 : Int)), (2000, 3000)].map msPair) [] =
      .ok ((List.range ([((0 : Int), (1000 : Int)), (2000, 3000)]).length).map
        (fun j =>
        { text := [['a'], ['b'], ['c']].getD j []
          start_sec :=
            (([((0 : Int), (1000 : Int)), (2000, 3000)].getD j (0, 0)).1 : ℚ) / 1000
          end_sec :=
            (([((0 : Int), (1000 : Int)), (2000, 3000)].getD j (0, 0)).2 : ℚ) / 1000 })) ∧
    ((List.range ([((0 : Int), (1000 : Int)), (2000, 3000)]).length).map (fun j =>
      ({ text := [['a'], ['b'], ['c']].getD j []
         start_sec :=
           (([((0 : Int), (1000 : Int)), (2000, 3000)].getD j (0, 0)).1 : ℚ) / 1000
         end_sec :=
           (([((0 : Int), (1000 : Int)), (2000, 3000)].getD j (0, 0)).2 : ℚ) / 1000 }
        : Segment))).length
      = ([((0 : Int), (1000 : Int)), (2000, 3000)]).length :=
  map_fewer_timestamps [['a'], ['b'], ['c']] [(0, 1000), (2000, 3000)] []
    (by decide)

/-! ## Claim C3 — front-loaded timestamp grouping -/

/-- The groups are contiguous: each group starts where the previous one
ends. -/
lemma groupStart_succ (n k i : Nat) :
    groupStart n k (i + 1) = groupStart n k i + groupSize n k i := by
  by_cases hir : i < n % k
  · have h1 : min i (n % k) = i := min_eq_left (Nat.le_of_lt hir)
    have h2 : min (i + 1) (n % k) = i + 1 := min_eq_left hir
    have h3 : (i + 1) * (n / k) = i * (n / k) + n / k := by ring
    simp only [groupStart, groupSize, h1, h2, hir, if_true]
    omega
  · have h1 : min i (n % k) = n % k := min_eq_right (by omega)
    have h2 : min (i + 1) (n % k) = n % k := min_eq_right (by omega)
    have h3 : (i + 1) * (n / k) = i * (n / k) + n / k := by ring
    simp only [groupStart, groupSize, h1, h2, hir, if_false]
    omega

/-- `char_positions` has one entry per sentence. -/
lemma charPositionsLoop_length (ft : List Char) :
    ∀ (l : List (List Char)) (p : Nat), (charPositionsLoop ft l p).length = l.length
  | [], _ => rfl
  | s :: rest, p => by
    simp [charPositionsLoop, charPositionsLoop_length ft rest]

/-- The well-supplied mapping loop, characterised: starting at sentence
`i` with `timestamp_idx = groupStart n k i`, each remaining sentence
consumes its whole group and spans the group's first start to the
group's last end. -/
lemma mapLoopGE_formula (ps : List (Int × Int)) (kTot : Nat)
    (hw : 1 ≤ ps.length / kTot)
    (hk : 0 < kTot) :
    ∀ (rem : List ((List Char) × (Nat × Nat))) (i : Nat),
      i + rem.length ≤ kTot →
      mapLoopGE (ps.map msPair) (ps.length / kTot) (ps.length % kTot) rem i
          (groupStart ps.length kTot i) =
        .ok ((List.range rem.length).map (fun j =>
          { text := (rem.getD j ([], (0, 0))).1
            start_sec :=
              ((ps.getD (groupStart ps.length kTot (i + j)) (0, 0)).1 : ℚ) / 1000
            end_sec :=
              ((ps.getD (groupStart ps.length kTot (i + j)
                + groupSize ps.length kTot (i + j) - 1) (0, 0)).2 : ℚ) / 1000 }))
  | [], i => fun _ => by simp [mapLoopGE]
  | (sentence, cp) :: rest, i => fun hlen => by
    have hdm := Nat.div_add_mod ps.length kTot
    have hgs : groupSize ps.length kTot i
        = ps.length / kTot + (if i < ps.length % kTot then 1 else 0) := rfl
    have hi1 : i + 1 ≤ kTot := by simp at hlen; omega
    have hmul : (i + 1) * (ps.length / kTot) ≤ kTot * (ps.length / kTot) :=
      Nat.mul_le_mul_right _ hi1
    have hminr : min (i + 1) (ps.length % kTot) ≤ ps.length % kTot :=
      min_le_right _ _
    have hnext : groupStart ps.length kTot (i + 1) ≤ ps.length := by
      simp only [groupStart] at hmul hminr ⊢
      omega
    have hsucc := groupStart_succ ps.length kTot i
    have hsize1 : 1 ≤ groupSize ps.length kTot i := by
      simp only [groupSize]
      omega
    have hsum : groupStart ps.length kTot i + groupSize ps.length kTot i
        ≤ ps.length := by omega
    have hlt : groupStart ps.length kTot i < ps.length := by omega
    have hltm : groupStart ps.length kTot i < (ps.map msPair).length := by
      simpa using hlt
    have hendnat : groupStart ps.length kTot i + groupSize ps.length kTot i - 1
        < ps.length := by omega
    have hendnat2 : groupStart ps.length kTot i
        + (ps.length / kTot + if i < ps.length % kTot then 1 else 0) - 1
        < ps.length := by
      have h := hendnat
      rw [hgs] at h
      exact h
    have hendnat3 : groupStart ps.length kTot i
        + (ps.length / kTot + if i < ps.length % kTot then 1 else 0) - 1
        < (ps.map msPair).length := by simpa using hendnat2
    -- the Int-valued `end_idx` is the Nat index of the group's last word
    have hend : min (((groupStart ps.length kTot i : Nat) : Int)
          + ((ps.length / kTot + if i < ps.length % kTot then 1 else 0 : Nat) : Int)
          - 1)
          (((ps.map msPair).length : Int) - 1)
        = ((groupStart ps.length kTot i
            + (ps.length / kTot + if i < ps.length % kTot then 1 else 0) - 1 : Nat)
              : Int) := by
      have hlenmap : ((ps.map msPair).length : Int) = (ps.length : Int) := by simp
      rw [hlenmap, ← hgs]
      have hle : ((groupStart ps.length kTot i : Nat) : Int)
          + ((groupSize ps.length kTot i : Nat) : Int) - 1
          ≤ ((ps.length : Nat) : Int) - 1 := by omega
      rw [min_eq_left hle]
      omega
    have hcall : groupStart ps.length kTot i
        + (ps.length / kTot + if i < ps.length % kTot then 1 else 0)
        = groupStart ps.length kTot (i + 1) := by
      rw [hsucc, hgs]
    have ih := mapLoopGE_formula ps kTot hw hk rest (i + 1)
      (by simp at hlen ⊢; omega)
    simp only [mapLoopGE]
    rw [if_pos hltm]
    simp only [pyListIndex_nat (ps.map msPair) (groupStart ps.length kTot i) hltm,
      getD_map_msPair ps (groupStart ps.length kTot i) hlt,
      pySubscript_msPair_zero, hend]
    simp only [pyListIndex_nat (ps.map msPair)
        (groupStart ps.length kTot i
          + (ps.length / kTot + if i < ps.length % kTot then 1 else 0) - 1)
        hendnat3,
      getD_map_msPair ps
        (groupStart ps.length kTot i
          + (ps.length / kTot + if i < ps.length % kTot then 1 else 0) - 1)
        hendnat2,
      pySubscript_msPair_last, pyFloat_int]
    rw [← hcall] at ih
    simp only [ih]
    simp only [List.length_cons, List.range_succ_eq_map, List.map_cons,
      List.map_map, Except.ok.injEq, List.cons.injEq]
    constructor
    · simp [groupSize]
    · apply List.map_congr_left
      intro j _
      have harith : i + (j + 1) = i + 1 + j := by omega
      simp [Function.comp, List.getD_cons_succ, harith]

/-- First components of the zipped sentence/char-position list. -/
lemma zip_getD_fst (ss : List (List Char)) (cps : List (Nat × Nat)) (j : Nat)
    (hj : j < ss.length) (hlen : cps.length = ss.length) :
    ((ss.zip cps).getD j ([], (0, 0))).1 = ss.getD j [] := by
  have hz : j < (ss.zip cps).length := by
    rw [List.length_zip]
    omega
  rw [List.getD_eq_getElem _ _ hz, List.getD_eq_getElem _ _ hj]
  simp [List.getElem_zip]

/-- C3 (amended): for `k ≥ 1` sentences and `n ≥ k` timestamps the
mapper partitions the timestamp list into `k` contiguous,
non-overlapping, order-preserving groups — group `i` starting at
`groupStart n k i = i*(n/k) + min i (n mod k)` with size
`groupSize n k i = n/k + (1 if i < n mod k else 0)`, so the first
`n mod k` groups carry one extra timestamp and the groups exactly cover
the list — and emits for sentence `i` one segment spanning group `i`'s
first start to group `i`'s last end, milliseconds divided by 1000.
With `k = 0` the code instead raises `ZeroDivisionError`. -/
theorem map_enough_timestamps (ss : List (List Char)) (ps : List (Int × Int))
    (ft : List Char) (hk : ss ≠ []) (hkn : ss.length ≤ ps.length) :
    _map_sentences_to_timestamps ss (ps.map msPair) ft =
      .ok ((List.range ss.length).map (fun i =>
        { text := ss.getD i []
          start_sec :=
            ((ps.getD (groupStart ps.length ss.length i) (0, 0)).1 : ℚ) / 1000
          end_sec := ((ps.getD (groupStart ps.length ss.length i
            + groupSize ps.length ss.length i - 1) (0, 0)).2 : ℚ) / 1000 })) ∧
    groupStart ps.length ss.length ss.length = ps.length ∧
    (∀ i, groupStart ps.length ss.length (i + 1)
      = groupStart ps.length ss.length i + groupSize ps.length ss.length i) := by
  have hkpos : 0 < ss.length := List.length_pos.mpr hk
  have hw : 1 ≤ ps.length / ss.length := (Nat.one_le_div_iff hkpos).mpr hkn
  have hge : (ps.map msPair).length ≥ ss.length := by simpa using hkn
  have hne0 : ¬ (ss.length = 0) := by omega
  have hcps := charPositionsLoop_length ft ss 0
  have hziplen : (ss.zip (charPositionsLoop ft ss 0)).length = ss.length := by
    rw [List.length_zip, hcps]
    omega
  refine ⟨?_, ?_, fun i => groupStart_succ ps.length ss.length i⟩
  · have hform := mapLoopGE_formula ps ss.length hw hkpos
      (ss.zip (charPositionsLoop ft ss 0)) 0 (by omega)
    have h0 : groupStart ps.length ss.length 0 = 0 := by simp [groupStart]
    rw [h0] at hform
    simp only [_map_sentences_to_timestamps]
    rw [if_pos hge, if_neg hne0]
    simp only [List.length_map]
    rw [hform, hziplen]
    refine congrArg Except.ok (List.map_congr_left ?_)
    intro j hj
    have hjk : j < ss.length := List.mem_range.mp hj
    have hz := zip_getD_fst ss (charPositionsLoop ft ss 0) j hjk hcps
    simp only [Nat.zero_add]
    simpa using hz
  · have hdm := Nat.div_add_mod ps.length ss.length
    have hmod : ps.length % ss.length < ss.length := Nat.mod_lt _ hkpos
    simp only [groupStart, min_eq_right (Nat.le_of_lt hmod)]
    omega

/-- C3 (counterexample): zero sentences and zero timestamps satisfy
`n ≥ k`, but instead of the (empty) partition the mapper raises
`ZeroDivisionError` computing `len(timestamps) // len(sentences)`. -/
theorem map_empty_sentences_counterexample :
    _map_sentences_to_timestamps [] (([] : List (Int × Int)).map msPair) []
        = .error .zeroDivisionError ∧
    (_map_sentences_to_timestamps [] (([] : List (Int × Int)).map msPair) []).isOk
        = false :=
  ⟨rfl, rfl⟩

/-- Witness for `map_enough_timestamps`: the spec's own example — three
sentences, five timestamps, groups of sizes 2, 2 and 1. -/
theorem map_enough_timestamps_witness :
    (_map_sentences_to_timestamps [['a'], ['b'], ['c']]
        ([((0 : Int), (500 : Int)), (600, 1000), (1100, 1500), (1600, 2000),
          (2100, 2500)].map msPair) []).isOk = true ∧
    groupStart 5 3 3 = 5 := by
  have h := map_enough_timestamps [['a'], ['b'], ['c']]
    [(0, 500), (600, 1000), (1100, 1500), (1600, 2000), (2100, 2500)] []
    (List.cons_ne_nil _ _) (by decide)
  constructor
  · rw [h.1]
    rfl
  · have h2 := h.2.1
    simpa using h2

/-! ## Claim C9 — monotone, 99-capped download progress -/

/-- Invariant maintained by the aggregation state of one download job:
sizes are non-negative, the estimated total never exceeds the running
downloaded total (it is a running maximum of past downloaded totals),
and the progress is at most 99 — at most 50 while no total is known. -/
def entryInv (e : DownloadEntry) : Prop :=
  0 ≤ e.downloaded_size ∧ 0 ≤ e.total_size ∧ e.total_size ≤ e.downloaded_size ∧
  e.progress ≤ 99 ∧ (e.total_size = 0 → e.progress ≤ 50)

/-- Scalar facts about one aggregation step: the new progress stays in
range and cannot be below the old one. -/
lemma step_progress_facts (dOld tOld : Int) (pOld : ℚ) (ts n : Int)
    (_hn : 0 ≤ n) (_hd0 : 0 ≤ dOld) (_htd : tOld ≤ dOld) (hp99 : pOld ≤ 99)
    (hp50 : tOld = 0 → pOld ≤ 50)
    (hts0 : 0 ≤ ts) (htsle : ts ≤ dOld + n) (hts_zero : ts = 0 → tOld = 0) :
    min 99 (if ts > 0 then ((dOld + n : Int) : ℚ) / ((ts : Int) : ℚ) * 100
        else 50) ≤ 99 ∧
    (ts = 0 → min 99 (if ts > 0 then ((dOld + n : Int) : ℚ) / ((ts : Int) : ℚ)
        * 100 else 50) ≤ 50) ∧
    pOld ≤ min 99 (if ts > 0 then ((dOld + n : Int) : ℚ) / ((ts : Int) : ℚ)
        * 100 else 50) := by
  by_cases hpos : ts > 0
  · have hts' : (0 : ℚ) < (ts : ℚ) := by exact_mod_cast hpos
    have hratio : (99 : ℚ) ≤ ((dOld + n : Int) : ℚ) / ((ts : Int) : ℚ) * 100 := by
      have h1 : (1 : ℚ) ≤ ((dOld + n : Int) : ℚ) / ((ts : Int) : ℚ) := by
        rw [le_div_iff₀ hts']
        have hcast : ((ts : Int) : ℚ) ≤ ((dOld + n : Int) : ℚ) := by
          exact_mod_cast htsle
        linarith
      nlinarith
    rw [if_pos hpos, min_eq_left hratio]
    refine ⟨le_refl _, fun h => absurd h (by omega), hp99⟩
  · have hts_eq : ts = 0 := by omega
    rw [if_neg hpos]
    have hmin : min (99 : ℚ) 50 = 50 := by norm_num
    rw [hmin]
    refine ⟨by norm_num, fun _ => le_refl _, ?_⟩
    exact hp50 (hts_zero hts_eq)

/-- One non-cancelled byte-count callback on a state holding the job's
entry: it returns successfully, rewrites only that entry, preserves the
invariant, and does not decrease the reported progress. -/
lemma progressCallbackUpdate_ok (st : DownloadsState) (model_id : String)
    (e : DownloadEntry) (fs n : Int)
    (hflag : lookupFlag st.download_cancel_flags model_id = some false)
    (hlook : lookupEntry st.download_states model_id = some e)
    (hn : 0 ≤ n) (hinv : entryInv e) :
    ∃ e2 : DownloadEntry,
      progressCallbackUpdate st model_id fs n
        = .ok { st with
            download_states := setEntry st.download_states model_id e2 } ∧
      entryInv e2 ∧ e.progress ≤ e2.progress := by
  obtain ⟨hd0, ht0, htd, hp99, hp50⟩ := hinv
  have hts0 : 0 ≤ (if fs > 0 then max e.total_size (e.downloaded_size + n)
      else e.total_size) := by
    split <;> omega
  have htsle : (if fs > 0 then max e.total_size (e.downloaded_size + n)
      else e.total_size) ≤ e.downloaded_size + n := by
    split <;> omega
  have hts_zero : (if fs > 0 then max e.total_size (e.downloaded_size + n)
      else e.total_size) = 0 → e.total_size = 0 := by
    split <;> omega
  obtain ⟨hq99, hq50, hqmono⟩ := step_progress_facts e.downloaded_size
    e.total_size e.progress
    (if fs > 0 then max e.total_size (e.downloaded_size + n) else e.total_size)
    n hn hd0 htd hp99 hp50 hts0 htsle hts_zero
  refine ⟨{ e with
      downloaded_size := e.downloaded_size + n
      total_size :=
        if fs > 0 then max e.total_size (e.downloaded_size + n) else e.total_size
      progress := min 99
        (if (if fs > 0 then max e.total_size (e.downloaded_size + n)
              else e.total_size) > 0 then
          ((e.downloaded_size + n : Int) : ℚ)
            / ((if fs > 0 then max e.total_size (e.downloaded_size + n)
                else e.total_size : Int) : ℚ) * 100
        else 50) }, ?_, ?_, hqmono⟩
  · simp [progressCallbackUpdate, hflag, hlook]
  · refine ⟨?_, hts0, htsle, hq99, hq50⟩
    show (0 : Int) ≤ e.downloaded_size + n
    omega

/-- Running the callbacks from any state satisfying the invariant keeps
the reported progress values non-decreasing and at most 99, and leaves
a state entry still satisfying the invariant. -/
lemma runCallbackUpdates_inv (model_id : String) :
    ∀ (steps : List (Int × Int)), (∀ p ∈ steps, 0 ≤ p.2) →
    ∀ (st : DownloadsState) (e : DownloadEntry),
      lookupFlag st.download_cancel_flags model_id = some false →
      lookupEntry st.download_states model_id = some e →
      entryInv e →
      List.Chain' (· ≤ ·) (e.progress :: (runCallbackUpdates model_id steps st).1) ∧
      (∀ q ∈ (runCallbackUpdates model_id steps st).1, q ≤ 99) ∧
      ∃ ef, lookupEntry (runCallbackUpdates model_id steps st).2.download_states
          model_id = some ef ∧ entryInv ef
  | [], _, st, e, hflag, hlook, hinv => by
    refine ⟨by simp [runCallbackUpdates], by simp [runCallbackUpdates], ?_⟩
    exact ⟨e, by simpa [runCallbackUpdates] using hlook, hinv⟩
  | (fs, n) :: rest, hsteps, st, e, hflag, hlook, hinv => by
    have hn : 0 ≤ n := hsteps (fs, n) (List.mem_cons_self _ _)
    have hrest : ∀ p ∈ rest, 0 ≤ p.2 :=
      fun p hp => hsteps p (List.mem_cons_of_mem _ hp)
    obtain ⟨e2, hupd, hinv2, hmono⟩ :=
      progressCallbackUpdate_ok st model_id e fs n hflag hlook hn hinv
    have hflag2 : lookupFlag
        ({ st with download_states := setEntry st.download_states model_id e2 }
          : DownloadsState).download_cancel_flags model_id = some false := hflag
    obtain ⟨ihchain, ihmem, ef, hef, hefinv⟩ :=
      runCallbackUpdates_inv model_id rest hrest
        { st with download_states := setEntry st.download_states model_id e2 }
        e2 hflag2 (lookupEntry_setEntry _ _ _) hinv2
    have he2p : e2.progress ≤ 99 := hinv2.2.2.2.1
    refine ⟨?_, ?_, ⟨ef, ?_, hefinv⟩⟩
    · simp only [runCallbackUpdates, hupd, lookupEntry_setEntry, Option.map_some,
        Option.getD_some]
      exact List.Chain'.cons hmono ihchain
    · intro q hq
      simp only [runCallbackUpdates, hupd, lookupEntry_setEntry, Option.map_some,
        Option.getD_some] at hq
      rcases List.mem_cons.mp hq with hq1 | hq2
      · rw [hq1]
        exact he2p
      · exact ihmem q hq2
    · simpa [runCallbackUpdates, hupd] using hef

/-- C9: along any sequence of per-file byte-count callbacks of one
download job (each reporting a non-negative byte increment), the
reported progress percentage is monotonically non-decreasing starting
from the initial 0 and never exceeds 99; when the job is then marked
completed, the stored progress becomes exactly 100. -/
theorem download_progress_monotone (model_id path : String)
    (steps : List (Nat × Nat)) :
    List.Chain' (· ≤ ·) ((0 : ℚ) ::
      (runCallbackUpdates model_id
        (steps.map (fun p => ((p.1 : Int), (p.2 : Int))))
        (startDownloadState model_id)).1) ∧
    (∀ q ∈ (runCallbackUpdates model_id
        (steps.map (fun p => ((p.1 : Int), (p.2 : Int))))
        (startDownloadState model_id)).1, q ≤ 99) ∧
    completedProgress
      (runCallbackUpdates model_id
        (steps.map (fun p => ((p.1 : Int), (p.2 : Int))))
        (startDownloadState model_id)).2 model_id path = some 100 := by
  have hsteps : ∀ p ∈ steps.map (fun p => ((p.1 : Int), (p.2 : Int))), 0 ≤ p.2 := by
    intro p hp
    obtain ⟨q, _, rfl⟩ := List.mem_map.mp hp
    exact Int.natCast_nonneg q.2
  have hflag : lookupFlag (startDownloadState model_id).download_cancel_flags
      model_id = some false := by
    simp [startDownloadState, lookupFlag]
  have hlook : lookupEntry (startDownloadState model_id).download_states model_id
      = some { status := "downloading", progress := 0, downloaded_size := 0,
               total_size := 0 } := by
    simp [startDownloadState, lookupEntry]
  have hinv : entryInv { status := "downloading", progress := 0,
                         downloaded_size := 0, total_size := 0 } := by
    refine ⟨le_refl _, le_refl _, le_refl _, by norm_num, fun _ => by norm_num⟩
  obtain ⟨hchain, hmem, ef, hef, _⟩ := runCallbackUpdates_inv model_id
    (steps.map (fun p => ((p.1 : Int), (p.2 : Int)))) hsteps
    (startDownloadState model_id)
    { status := "downloading", progress := 0, downloaded_size := 0,
      total_size := (0 : Int) } hflag hlook hinv
  refine ⟨hchain, hmem, ?_⟩
  simp [completedProgress, completeDownload, hef, lookupEntry_setEntry]

/-- Witness for `download_progress_monotone`: the spec's example, two
files of 100 and 200 bytes reported in full. -/
theorem download_progress_monotone_witness :
    List.Chain' (· ≤ ·) ((0 : ℚ) ::
      (runCallbackUpdates "m"
        ([((100 : Nat), (100 : Nat)), (200, 200)].map
          (fun p => ((p.1 : Int), (p.2 : Int))))
        (startDownloadState "m")).1) ∧
    completedProgress
      (runCallbackUpdates "m"
        ([((100 : Nat), (100 : Nat)), (200, 200)].map
          (fun p => ((p.1 : Int), (p.2 : Int))))
        (startDownloadState "m")).2 "m" "/tmp/model" = some 100 := by
  have h := download_progress_monotone "m" "/tmp/model" [(100, 100), (200, 200)]
  exact ⟨h.1, h.2.2⟩

/-! ## Claim C1 — totality of `_segment_text` on well-formed records -/

/-- Valid dynamic list indexing yields an element of the list. -/
lemma pyListIndex_mem (xs : List PyVal) (i : Int)
    (h1 : -(xs.length : Int) ≤ i) (h2 : i < (xs.length : Int)) :
    ∃ v, pyListIndex xs i = .ok v ∧ v ∈ xs := by
  by_cases hneg : i < 0
  · have hcond : (0 : Int) ≤ i + (xs.length : Int) ∧
        i + (xs.length : Int) < (xs.length : Int) := by omega
    have hlt : (i + (xs.length : Int)).toNat < xs.length := by omega
    refine ⟨xs.getD (i + (xs.length : Int)).toNat PyVal.none, ?_, ?_⟩
    · simp [pyListIndex, hneg, hcond]
    · rw [List.getD_eq_getElem _ _ hlt]
      exact List.getElem_mem hlt
  · have hcond : (0 : Int) ≤ i ∧ i < (xs.length : Int) := by omega
    have hlt : i.toNat < xs.length := by omega
    refine ⟨xs.getD i.toNat PyVal.none, ?_, ?_⟩
    · simp [pyListIndex, hneg, hcond]
    · rw [List.getD_eq_getElem _ _ hlt]
      exact List.getElem_mem hlt

/-- `floatable` unpacked. -/
lemma floatable_iff (v : PyVal) : floatable v = true ↔ ∃ q, pyFloat v = .ok q := by
  unfold floatable
  cases h : pyFloat v <;> simp

/-- A string-shaped value is literally some string. -/
lemma isPyStr_exists (v : PyVal) (h : isPyStr v = true) : ∃ s, v = .str s := by
  cases v <;> simp [isPyStr] at h ⊢

/-- A well-formed timestamp entry yields convertible values under both
the `[0]` and the `[-1]` subscript. -/
lemma wfTimestampEntry_subscripts (t : PyVal) (h : wfTimestampEntry t = true) :
    (∃ v q, pySubscript t 0 = .ok v ∧ pyFloat v = .ok q) ∧
    (∃ v q, pySubscript t (-1) = .ok v ∧ pyFloat v = .ok q) := by
  cases t with
  | list ys =>
    have hEq : wfTimestampEntry (.list ys)
        = (!ys.isEmpty && floatable (ys.getD 0 PyVal.none)
            && floatable (ys.getD (ys.length - 1) PyVal.none)) := rfl
    rw [hEq, Bool.and_eq_true, Bool.and_eq_true] at h
    obtain ⟨⟨hne, hfl0⟩, hflL⟩ := h
    obtain ⟨q0, hq0⟩ := (floatable_iff _).mp hfl0
    obtain ⟨qL, hqL⟩ := (floatable_iff _).mp hflL
    have hysne : ys ≠ [] := by
      cases ys with
      | nil => simp at hne
      | cons a l => exact List.cons_ne_nil a l
    have hlen : 0 < ys.length := List.length_pos.mpr hysne
    constructor
    · refine ⟨ys.getD 0 PyVal.none, q0, ?_, hq0⟩
      have hidx : pyListIndex ys ((0 : Nat) : Int) = .ok (ys.getD 0 PyVal.none) :=
        pyListIndex_nat ys 0 hlen
      simpa [pySubscript] using hidx
    · refine ⟨ys.getD (ys.length - 1) PyVal.none, qL, ?_, hqL⟩
      have hidx := pyListIndex_neg_one ys hysne
      simpa [pySubscript] using hidx
  | none => simp [wfTimestampEntry] at h
  | bool b => simp [wfTimestampEntry] at h
  | int n => simp [wfTimestampEntry] at h
  | float q => simp [wfTimestampEntry] at h
  | str s => simp [wfTimestampEntry] at h
  | tuple xs => simp [wfTimestampEntry] at h
  | set xs => simp [wfTimestampEntry] at h
  | dict es => simp [wfTimestampEntry] at h
  | obj r t => simp [wfTimestampEntry] at h

/-- A well-formed `sentence_info` dict entry carries a string `text`. -/
lemma wfSentenceInfoEntry_dict_text (d : List (PyVal × PyVal))
    (h : wfSentenceInfoEntry (.dict d) = true) :
    isPyStr (pyDictGet d "text" (.str "")) = true := by
  simp only [wfSentenceInfoEntry] at h
  cases htext : pyDictGet d "text" (.str "") <;> rw [htext] at h <;>
    simp_all [isPyStr]

/-- The `sentence_info` loop succeeds on well-formed entries. -/
lemma sentenceInfoLoop_ok : ∀ (xs : List PyVal),
    (∀ s ∈ xs, wfSentenceInfoEntry s = true) →
    ∃ segs, sentenceInfoLoop xs = .ok segs
  | [], _ => ⟨[], rfl⟩
  | sent :: rest, h => by
    have hs := h sent (List.mem_cons_self _ _)
    obtain ⟨segs, ih⟩ := sentenceInfoLoop_ok rest
      (fun s hm => h s (List.mem_cons_of_mem _ hm))
    cases sent with
    | dict d =>
      obtain ⟨s, htext⟩ := isPyStr_exists _ (wfSentenceInfoEntry_dict_text d hs)
      simp only [wfSentenceInfoEntry, htext] at hs
      by_cases hcond : (!(pyStripChars s.toList).isEmpty
          && !isPyNone (pyDictGet d "start" PyVal.none)
          && !isPyNone (pyDictGet d "end" PyVal.none)) = true
      · rw [if_pos hcond] at hs
        rw [Bool.and_eq_true] at hs
        obtain ⟨q0, hq0⟩ := (floatable_iff _).mp hs.1
        obtain ⟨qE, hqE⟩ := (floatable_iff _).mp hs.2
        refine ⟨⟨pyStripChars s.toList, q0, qE⟩ :: segs, ?_⟩
        simp only [sentenceInfoLoop, htext, hcond, if_true, hq0, hqE, ih]
      · have hcondf := Bool.eq_false_iff.mpr hcond
        refine ⟨segs, ?_⟩
        simp only [sentenceInfoLoop, htext, ih]
        simp
        intro h1 h2 h3
        simp [h2, h3, List.isEmpty_iff] at hcondf
        exact absurd hcondf h1
    | none => exact ⟨segs, by simpa [sentenceInfoLoop] using ih⟩
    | bool b => exact ⟨segs, by simpa [sentenceInfoLoop] using ih⟩
    | int n => exact ⟨segs, by simpa [sentenceInfoLoop] using ih⟩
    | float q => exact ⟨segs, by simpa [sentenceInfoLoop] using ih⟩
    | str s => exact ⟨segs, by simpa [sentenceInfoLoop] using ih⟩
    | list l => exact ⟨segs, by simpa [sentenceInfoLoop] using ih⟩
    | tuple l => exact ⟨segs, by simpa [sentenceInfoLoop] using ih⟩
    | set l => exact ⟨segs, by simpa [sentenceInfoLoop] using ih⟩
    | obj r t => exact ⟨segs, by simpa [sentenceInfoLoop] using ih⟩

/-- The `stamp_sents` loop succeeds on well-formed entries. -/
lemma stampSentsLoop_ok : ∀ (xs : List PyVal),
    (∀ s ∈ xs, wfStampSentsEntry s = true) →
    ∃ segs, stampSentsLoop xs = .ok segs
  | [], _ => ⟨[], rfl⟩
  | sent :: rest, h => by
    have hs := h sent (List.mem_cons_self _ _)
    obtain ⟨segs, ih⟩ := stampSentsLoop_ok rest
      (fun s hm => h s (List.mem_cons_of_mem _ hm))
    cases sent with
    | dict d =>
      by_cases hnone : (isPyNone (pyDictGet d "start" PyVal.none)
          || isPyNone (pyDictGet d "end" PyVal.none)) = true
      · refine ⟨segs, ?_⟩
        simp only [stampSentsLoop]
        rw [if_pos hnone]
        exact ih
      · have hs2 : (floatable (pyDictGet d "start" PyVal.none)
            && floatable (pyDictGet d "end" PyVal.none)) = true := by
          simp only [wfStampSentsEntry] at hs
          rw [if_neg hnone] at hs
          exact hs
        rw [Bool.and_eq_true] at hs2
        obtain ⟨q0, hq0⟩ := (floatable_iff _).mp hs2.1
        obtain ⟨qE, hqE⟩ := (floatable_iff _).mp hs2.2
        simp only [stampSentsLoop]
        rw [if_neg hnone]
        simp only [hq0, hqE, ih]
        exact ⟨_, rfl⟩
    | none => exact ⟨segs, by simpa [stampSentsLoop] using ih⟩
    | bool b => exact ⟨segs, by simpa [stampSentsLoop] using ih⟩
    | int n => exact ⟨segs, by simpa [stampSentsLoop] using ih⟩
    | float q => exact ⟨segs, by simpa [stampSentsLoop] using ih⟩
    | str s => exact ⟨segs, by simpa [stampSentsLoop] using ih⟩
    | list l => exact ⟨segs, by simpa [stampSentsLoop] using ih⟩
    | tuple l => exact ⟨segs, by simpa [stampSentsLoop] using ih⟩
    | set l => exact ⟨segs, by simpa [stampSentsLoop] using ih⟩
    | obj r t => exact ⟨segs, by simpa [stampSentsLoop] using ih⟩

/-- The well-supplied mapper loop never raises on well-formed timestamp
entries, whatever the group accounting. -/
lemma mapLoopGE_ok (ts : List PyVal) (w r : Nat)
    (hts : ∀ t ∈ ts, wfTimestampEntry t = true) (hne : ts ≠ []) :
    ∀ (rem : List ((List Char) × (Nat × Nat))) (i tsIdx : Nat),
      ∃ segs, mapLoopGE ts w r rem i tsIdx = .ok segs
  | [], _, _ => ⟨[], rfl⟩
  | (sentence, cp) :: rest, i, tsIdx => by
    obtain ⟨segsA, ihA⟩ := mapLoopGE_ok ts w r hts hne rest (i + 1)
      (tsIdx + (w + if i < r then 1 else 0))
    obtain ⟨segsB, ihB⟩ := mapLoopGE_ok ts w r hts hne rest (i + 1) tsIdx
    have hlen : 0 < ts.length := List.length_pos.mpr hne
    have hlen' : (1 : Int) ≤ (ts.length : Int) := by exact_mod_cast hlen
    by_cases hidx : tsIdx < ts.length
    · obtain ⟨tFirst, hFirst, hmemF⟩ := pyListIndex_mem ts (tsIdx : Int)
        (by omega) (by exact_mod_cast hidx)
      obtain ⟨⟨v0, q0, hsub0, hq0⟩, _⟩ :=
        wfTimestampEntry_subscripts tFirst (hts _ hmemF)
      have hlb : -((ts.length : Int))
          ≤ min ((tsIdx : Int) + ((w + if i < r then 1 else 0 : Nat) : Int) - 1)
              ((ts.length : Int) - 1) := by
        have h1 : (-1 : Int)
            ≤ (tsIdx : Int) + ((w + if i < r then 1 else 0 : Nat) : Int) - 1 := by
          have := Int.natCast_nonneg (w + if i < r then 1 else 0)
          omega
        have h2 : (-1 : Int) ≤ (ts.length : Int) - 1 := by omega
        have := le_min h1 h2
        omega
      have hub : min ((tsIdx : Int) + ((w + if i < r then 1 else 0 : Nat) : Int) - 1)
          ((ts.length : Int) - 1) < (ts.length : Int) := by
        have := min_le_right
          ((tsIdx : Int) + ((w + if i < r then 1 else 0 : Nat) : Int) - 1)
          ((ts.length : Int) - 1)
        omega
      obtain ⟨tLast, hLast, hmemL⟩ := pyListIndex_mem ts
        (min ((tsIdx : Int) + ((w + if i < r then 1 else 0 : Nat) : Int) - 1)
          ((ts.length : Int) - 1)) hlb hub
      obtain ⟨_, vL, qL, hsubL, hqL⟩ :=
        wfTimestampEntry_subscripts tLast (hts _ hmemL)
      simp only [mapLoopGE]
      rw [if_pos hidx]
      simp only [hFirst, hsub0, hLast, hsubL, hq0, hqL, ihA]
      exact ⟨_, rfl⟩
    · refine ⟨segsB, ?_⟩
      simp only [mapLoopGE]
      rw [if_neg hidx]
      exact ihB

/-- The under-supplied mapper loop never raises on well-formed
timestamp entries. -/
lemma mapLoopLT_ok (ts : List PyVal)
    (hts : ∀ t ∈ ts, wfTimestampEntry t = true) :
    ∀ (rem : List (List Char)) (i : Nat),
      ∃ segs, mapLoopLT ts rem i = .ok segs
  | [], _ => ⟨[], rfl⟩
  | sentence :: rest, i => by
    obtain ⟨segs, ih⟩ := mapLoopLT_ok ts hts rest (i + 1)
    by_cases hidx : i < ts.length
    · obtain ⟨t0, h0, hmem⟩ := pyListIndex_mem ts (i : Int)
        (by have := Int.natCast_nonneg i; omega) (by exact_mod_cast hidx)
      obtain ⟨⟨v0, q0, hsub0, hq0⟩, vL, qL, hsubL, hqL⟩ :=
        wfTimestampEntry_subscripts t0 (hts _ hmem)
      simp only [mapLoopLT]
      rw [if_pos hidx]
      simp only [h0, hsub0, hsubL, hq0, hqL, ih]
      exact ⟨_, rfl⟩
    · refine ⟨segs, ?_⟩
      simp only [mapLoopLT]
      rw [if_neg hidx]
      exact ih

/-- The single-sentence fallback never raises on a non-empty list of
well-formed timestamp entries. -/
lemma singleSentenceSegment_ok (text : List Char) (tl : List PyVal)
    (hts : ∀ t ∈ tl, wfTimestampEntry t = true) (hne : tl ≠ []) :
    ∃ segs, singleSentenceSegment text tl = .ok segs := by
  have hlen : 0 < tl.length := List.length_pos.mpr hne
  have hlen' : (1 : Int) ≤ (tl.length : Int) := by exact_mod_cast hlen
  obtain ⟨t0, h0, hm0⟩ := pyListIndex_mem tl 0 (by omega) (by omega)
  obtain ⟨⟨v0, q0, hs0, hq0⟩, _⟩ := wfTimestampEntry_subscripts t0 (hts _ hm0)
  obtain ⟨tL, hL, hmL⟩ := pyListIndex_mem tl (-1) (by omega) (by omega)
  obtain ⟨_, vL, qL, hsL, hqL⟩ := wfTimestampEntry_subscripts tL (hts _ hmL)
  simp only [singleSentenceSegment, h0, hs0, hL, hsL, hq0, hqL]
  exact ⟨_, rfl⟩

/-- The whole mapper never raises when called with at least one
sentence and a non-empty list of well-formed timestamp entries. -/
lemma map_sentences_ok (ss : List (List Char)) (tl : List PyVal)
    (ft : List Char) (hss : ss ≠ [])
    (hts : ∀ t ∈ tl, wfTimestampEntry t = true) (hne : tl ≠ []) :
    ∃ segs, _map_sentences_to_timestamps ss tl ft = .ok segs := by
  by_cases hge : tl.length ≥ ss.length
  · have hk0 : ¬ (ss.length = 0) := by
      have := List.length_pos.mpr hss
      omega
    obtain ⟨segs, hsegs⟩ := mapLoopGE_ok tl (tl.length / ss.length)
      (tl.length % ss.length) hts hne (ss.zip (charPositionsLoop ft ss 0)) 0 0
    refine ⟨segs, ?_⟩
    simp only [_map_sentences_to_timestamps]
    rw [if_pos hge, if_neg hk0]
    exact hsegs
  · obtain ⟨segs, hsegs⟩ := mapLoopLT_ok tl hts ss 0
    refine ⟨segs, ?_⟩
    simp only [_map_sentences_to_timestamps]
    rw [if_neg hge]
    exact hsegs

/-- The zero-or-one-segment tail of the fallback tier always
succeeds. -/
lemma zeroSegCases (text : List Char) :
    ∃ segs, (if !text.isEmpty then
        (Except.ok [⟨text, 0, 0⟩] : Except PyErr (List Segment))
      else .ok []) = .ok segs := by
  by_cases h : (!text.isEmpty) = true
  · exact ⟨_, by rw [if_pos h]⟩
  · exact ⟨_, by rw [if_neg h]⟩

/-- The word-timestamp fallback tier never raises when the `text` field
is a string whenever truthy and the decoded `timestamp` elements are
well-formed whenever it is a list. -/
lemma segmentTextTier3_ok (jsonLoads : String → Option PyVal)
    (res_item : List (String × PyVal))
    (htext : (!pyTruthy (recordGet res_item "text")
        || isPyStr (recordGet res_item "text")) = true)
    (htl : (match decodeIfStr jsonLoads (recordGet res_item "timestamp") with
      | PyVal.list tl => tl.all wfTimestampEntry
      | _ => true) = true) :
    ∃ segs, segmentTextTier3 jsonLoads res_item = .ok segs := by
  by_cases htruthy : pyTruthy (recordGet res_item "text") = true
  · have hstr : isPyStr (recordGet res_item "text") = true := by
      simpa [htruthy] using htext
    obtain ⟨s, hsv⟩ := isPyStr_exists _ hstr
    have htruthy2 : pyTruthy (PyVal.str s) = true := by
      rw [← hsv]
      exact htruthy
    simp only [segmentTextTier3, hsv]
    rw [if_pos htruthy2]
    dsimp only
    cases hdec : decodeIfStr jsonLoads (recordGet res_item "timestamp") with
    | list tl =>
      dsimp only
      rw [hdec] at htl
      have hwf : ∀ t ∈ tl, wfTimestampEntry t = true := List.all_eq_true.mp htl
      by_cases hcond : (!tl.isEmpty && !(pyStripChars s.toList).isEmpty) = true
      · have htl_ne : tl ≠ [] := by
          rw [Bool.and_eq_true] at hcond
          intro hnil
          rw [hnil] at hcond
          simp at hcond
        by_cases hgt : (_split_text_into_sentences (pyStripChars s.toList)).length > 1
        · have hss_ne : _split_text_into_sentences (pyStripChars s.toList) ≠ [] := by
            intro hnil
            rw [hnil] at hgt
            simp at hgt
          obtain ⟨segs, hsegs⟩ := map_sentences_ok
            (_split_text_into_sentences (pyStripChars s.toList)) tl
            (pyStripChars s.toList) hss_ne hwf htl_ne
          refine ⟨segs, ?_⟩
          rw [if_pos hcond, if_pos hgt]
          exact hsegs
        · obtain ⟨segs, hsegs⟩ := singleSentenceSegment_ok
            (pyStripChars s.toList) tl hwf htl_ne
          refine ⟨segs, ?_⟩
          rw [if_pos hcond, if_neg hgt]
          exact hsegs
      · rw [if_neg hcond]
        exact zeroSegCases _
    | none =>
      dsimp only
      exact zeroSegCases _
    | bool b =>
      dsimp only
      exact zeroSegCases _
    | int n =>
      dsimp only
      exact zeroSegCases _
    | float q =>
      dsimp only
      exact zeroSegCases _
    | str s2 =>
      dsimp only
      exact zeroSegCases _
    | tuple l =>
      dsimp only
      exact zeroSegCases _
    | set l =>
      dsimp only
      exact zeroSegCases _
    | dict es =>
      dsimp only
      exact zeroSegCases _
    | obj r t =>
      dsimp only
      exact zeroSegCases _
  · have hf : pyTruthy (recordGet res_item "text") = false :=
      Bool.eq_false_iff.mpr htruthy
    simp only [segmentTextTier3, hf]
    cases hdec : decodeIfStr jsonLoads (recordGet res_item "timestamp") with
    | list tl => exact ⟨[], by simp [pyStripChars]⟩
    | none => exact ⟨[], by simp [pyStripChars]⟩
    | bool b => exact ⟨[], by simp [pyStripChars]⟩
    | int n => exact ⟨[], by simp [pyStripChars]⟩
    | float q => exact ⟨[], by simp [pyStripChars]⟩
    | str s2 => exact ⟨[], by simp [pyStripChars]⟩
    | tuple l => exact ⟨[], by simp [pyStripChars]⟩
    | set l => exact ⟨[], by simp [pyStripChars]⟩
    | dict es => exact ⟨[], by simp [pyStripChars]⟩
    | obj r t => exact ⟨[], by simp [pyStripChars]⟩

/-- C1 (amended): on every result record whose inspected fields are
well-formed in the sense of `wfRecord` — `sentence_info` entries with
string `text` and `float`-convertible `start`/`end` when selected,
`stamp_sents` entries (after JSON decoding) with `float`-convertible
bounds when both present, a `text` field that is a string whenever
truthy, and decoded `timestamp` elements that are non-empty lists with
convertible first/last components — `_segment_text` returns normally
(the empty list at worst) and never raises, for every behaviour of the
external JSON decoder. -/
theorem segment_text_total (jsonLoads : String → Option PyVal)
    (res_item : List (String × PyVal)) (h : wfRecord jsonLoads res_item = true) :
    (_segment_text jsonLoads res_item).isOk = true := by
  rw [wfRecord, Bool.and_eq_true, Bool.and_eq_true, Bool.and_eq_true] at h
  obtain ⟨⟨⟨h1, h2⟩, h3⟩, h4⟩ := h
  have htier1 : ∃ segs1, (match recordGet res_item "sentence_info" with
      | PyVal.list xs => if !xs.isEmpty then sentenceInfoLoop xs else .ok []
      | _ => (.ok [] : Except PyErr (List Segment))) = .ok segs1 := by
    cases hsi : recordGet res_item "sentence_info" with
    | list xs =>
      rw [hsi] at h1
      by_cases hxe : (!xs.isEmpty) = true
      · obtain ⟨segs, hsegs⟩ := sentenceInfoLoop_ok xs (List.all_eq_true.mp h1)
        refine ⟨segs, ?_⟩
        dsimp only
        rw [if_pos hxe]
        exact hsegs
      · refine ⟨[], ?_⟩
        dsimp only
        rw [if_neg hxe]
    | none => exact ⟨[], rfl⟩
    | bool b => exact ⟨[], rfl⟩
    | int n => exact ⟨[], rfl⟩
    | float q => exact ⟨[], rfl⟩
    | str s => exact ⟨[], rfl⟩
    | tuple l => exact ⟨[], rfl⟩
    | set l => exact ⟨[], rfl⟩
    | dict es => exact ⟨[], rfl⟩
    | obj r t => exact ⟨[], rfl⟩
  obtain ⟨segs1, htier1⟩ := htier1
  have htier2 : ∃ segs2, (match pyIterElems
      (decodeIfStr jsonLoads (recordGet res_item "stamp_sents")) with
      | some elems => stampSentsLoop elems
      | Option.none => (.ok [] : Except PyErr (List Segment))) = .ok segs2 := by
    cases hss : pyIterElems (decodeIfStr jsonLoads (recordGet res_item "stamp_sents")) with
    | some elems =>
      rw [hss] at h2
      obtain ⟨segs, hsegs⟩ := stampSentsLoop_ok elems (List.all_eq_true.mp h2)
      exact ⟨segs, hsegs⟩
    | none => exact ⟨[], rfl⟩
  obtain ⟨segs2, htier2⟩ := htier2
  obtain ⟨segs3, htier3⟩ := segmentTextTier3_ok jsonLoads res_item h3 h4
  simp only [_segment_text, htier1]
  by_cases he1 : (!segs1.isEmpty) = true
  · rw [if_pos he1]
    rfl
  · rw [if_neg he1]
    simp only [htier2]
    by_cases he2 : (!segs2.isEmpty) = true
    · rw [if_pos he2]
      rfl
    · rw [if_neg he2, htier3]
      rfl

/-- C1 (counterexample): a record whose `sentence_info` entry carries
`text: None` — a field holding a null value — makes the extractor call
`.strip()` on `None` and raise `AttributeError` instead of returning a
list. -/
theorem segment_text_raises_counterexample :
    _segment_text (fun _ => Option.none)
        [("sentence_info", .list [.dict [(.str "text", .none),
          (.str "start", .int 0), (.str "end", .int 1)]])]
      = .error .attributeError ∧
    (_segment_text (fun _ => Option.none)
        [("sentence_info", .list [.dict [(.str "text", .none),
          (.str "start", .int 0), (.str "end", .int 1)]])]).isOk = false := by
  constructor
  · decide
  · decide

/-- Witness for `segment_text_total` at a concrete well-formed record. -/
theorem segment_text_total_witness :
    wfRecord (fun _ => Option.none) [("text", .str "hello")] = true ∧
    (_segment_text (fun _ => Option.none) [("text", .str "hello")]).isOk = true :=
  ⟨by decide, segment_text_total (fun _ => Option.none) [("text", .str "hello")]
    (by decide)⟩
